import Mathlib

/-! Cache layer of the TibiaData API fork (`src/cache/cache.go`, `src/main.go`)

A shallow embedding of the Redis cache package and of the bootstrap function
`initializeCache`, followed by the properties of the cache contract.

* Go `error` values are `Option GoError` (`none` is `nil`).
* `time.Duration` is an `Int` count of nanoseconds, arithmetic wrapping at 64 bits.
* The process environment is a function `String → Option String`.
* The package variable `Client` is a field of the explicit program state `World`.
* The libraries the package calls (go-redis, `encoding/json`, `redis.ParseURL`)
  are parameters of the embedding; one concrete instance of each is given for
  closed examples.
-/

namespace Cache

/-! ## Go basics -/

/-- Go `error` values seen by the package: the sentinel `redis.Nil`, or any other error. -/
inductive GoError where
  | redisNil
  | other (msg : String)
  deriving DecidableEq, Repr

/-- Process environment: `none` is an unset variable. -/
abbrev Env := String → Option String

/-- Go `os.Getenv`: the value of the variable, the empty string when it is unset. -/
def Getenv (env : Env) (key : String) : String :=
  (env key).getD ""

/-- Environment with exactly one variable set. -/
def envWith (key value : String) : Env :=
  fun k => if k = key then some value else none

/-- Environment with no variable set. -/
def envEmpty : Env := fun _ => none

def int64Min : Int := -9223372036854775808

def int64Max : Int := 9223372036854775807

/-- Two's-complement wrap of an integer into the signed 64-bit range. -/
def wrap64 (x : Int) : Int :=
  (x + 9223372036854775808) % 18446744073709551616 - 9223372036854775808

/-- Value of a run of decimal digits, most significant first. -/
def digitsValue (ds : List Char) : Nat :=
  ds.foldl (fun n c => n * 10 + (c.toNat - 48)) 0

/-- Go `strconv.Atoi` on a 64-bit platform: an optional sign, then one or more ASCII
digits, the value within the `int` range; `none` stands for a non-nil error. -/
def Atoi (s : String) : Option Int :=
  let cs := s.toList
  let neg := cs.head? = some '-'
  let ds := if cs.head? = some '-' ∨ cs.head? = some '+' then cs.tail else cs
  if ds = [] then none
  else if ds.all Char.isDigit = false then none
  else
    let v : Int := if neg then -(digitsValue ds : Int) else (digitsValue ds : Int)
    if int64Min ≤ v ∧ v ≤ int64Max then some v else none

/-- The characters `cs` are a decimal numeral of `n`: one or more ASCII digits, no sign,
with value `n` (leading zeros allowed). -/
def IsDecimalOf (cs : List Char) (n : Nat) : Prop :=
  cs ≠ [] ∧ cs.all Char.isDigit = true ∧ cs.head? ≠ some '-' ∧ cs.head? ≠ some '+' ∧
    digitsValue cs = n

/-! ## TTL policy (`GetTTL`) -/

/-- Go `time.Second`, in nanoseconds. -/
def Second : Int := 1000000000

/-- Go `time.Minute`, in nanoseconds. -/
def Minute : Int := 60 * Second

/-- Go `time.Duration(a) * b`: 64-bit signed multiplication. -/
def durMul (a b : Int) : Int := wrap64 (a * b)

/-- `GetTTL` of `cache.go`: the recommended TTL of a data type, in nanoseconds. The
durations of the table are constants; `time.Duration(ttl) * time.Second` is computed at run
time. -/
def GetTTL (env : Env) (dataType : String) : Int :=
  if dataType = "character" then
    let ttlStr := Getenv env "CACHE_TTL_CHARACTER"
    if ttlStr ≠ "" then
      match Atoi ttlStr with
      | some ttl => if ttl > 0 then durMul ttl Second else 60 * Second
      | none => 60 * Second
    else 60 * Second
  else if dataType = "world" then 10 * Second
  else if dataType = "guild" then 10 * Second
  else if dataType = "highscores" then 1 * Minute
  else 60 * Second

/-! ## The store client (go-redis), as seen by the package -/

/-- Fields of `redis.Options` that the package fills in. -/
structure Options where
  Addr : String
  Password : String
  DB : Int
  deriving DecidableEq, Repr

/-- Scalar Go values: `string`, `int`, `bool`. -/
inductive Scalar where
  | str (s : String)
  | int (n : Int)
  | bool (b : Bool)
  deriving DecidableEq, Repr

/-- Values passed as `interface{}` to `Set`: a scalar, or a composite value (struct, map,
slice) named by its type, which does not implement `encoding.BinaryMarshaler`. -/
inductive GoValue where
  | scalar (v : Scalar)
  | composite (typeName : String)
  deriving DecidableEq, Repr

/-- Calls recorded in the ghost trace of the program state: the two setup functions and the
commands sent to the store through the client. -/
inductive Event where
  | setup (addr password : String) (db : Int)
  | setupWithURL (redisURL : String)
  | cmdGet (key : String)
  | cmdSet (key : String) (value : GoValue) (ttl : Int)
  | cmdDel (key : String)
  | cmdFlushAll
  deriving DecidableEq, Repr

/-- Behaviour of the go-redis client against a store with state `σ`: each command takes the
options of the client it is issued on and the store state, and gives its result and the new
state. `get` is `Client.Get(ctx, key).Result()`; the others are `.Err()` of the command. -/
structure Redis (σ : Type) where
  get : Options → String → σ → Except GoError String × σ
  set : Options → String → GoValue → Int → σ → Option GoError × σ
  del : Options → String → σ → Option GoError × σ
  flushAll : Options → σ → Option GoError × σ

/-- Go `json.Unmarshal(data, v)`: from the payload and the current contents of the
destination, the error (`none` is `nil`) and the contents of the destination afterwards. -/
abbrev Unmarshal (δ : Type) := String → δ → Option GoError × δ

/-- Go `redis.ParseURL`: connection options, or an error. -/
abbrev ParseURL := String → Except GoError Options

/-- Program state: the package variable `Client` (`none` is the nil pointer; a client made by
`redis.NewClient(options)` is represented by its options), the state of the store, and the
ghost trace of calls made so far. -/
structure World (σ : Type) where
  Client : Option Options
  store : σ
  trace : List Event

/-- Result of running a Go function: it returns a value, or the goroutine panics. -/
inductive Outcome (α : Type) where
  | ret (a : α)
  | panic
  deriving DecidableEq, Repr

/-! ## The cache package (`cache.go`) -/

section Package

variable {σ : Type}

/-- `Setup` of `cache.go`: assigns a new client made from the three parameters. -/
def Setup (addr password : String) (db : Int) (w : World σ) : World σ :=
  { w with
    Client := some { Addr := addr, Password := password, DB := db }
    trace := w.trace ++ [Event.setup addr password db] }

/-- `SetupWithURL` of `cache.go`: on a parse error returns it before assigning `Client`;
otherwise assigns a new client made from the parsed options and returns nil. -/
def SetupWithURL (parseURL : ParseURL) (redisURL : String) (w : World σ) :
    Option GoError × World σ :=
  let w1 : World σ := { w with trace := w.trace ++ [Event.setupWithURL redisURL] }
  match parseURL redisURL with
  | Except.error err => (some err, w1)
  | Except.ok options => (none, { w1 with Client := some options })

/-- `Get` of `cache.go`: `Client.Get(Ctx, key).Result()`. The method is reached through the
pointer `Client`, so a nil `Client` is a nil-pointer dereference. -/
def Get (r : Redis σ) (key : String) (w : World σ) :
    Outcome (Except GoError String) × World σ :=
  match w.Client with
  | none => (Outcome.panic, w)
  | some c =>
    let res := r.get c key w.store
    (Outcome.ret res.1, { w with store := res.2, trace := w.trace ++ [Event.cmdGet key] })

/-- `Set` of `cache.go`: `Client.Set(Ctx, key, value, ttl).Err()`. -/
def Set (r : Redis σ) (key : String) (value : GoValue) (ttl : Int) (w : World σ) :
    Outcome (Option GoError) × World σ :=
  match w.Client with
  | none => (Outcome.panic, w)
  | some c =>
    let res := r.set c key value ttl w.store
    (Outcome.ret res.1,
      { w with store := res.2, trace := w.trace ++ [Event.cmdSet key value ttl] })

/-- `Delete` of `cache.go`: `Client.Del(Ctx, key).Err()`. -/
def Delete (r : Redis σ) (key : String) (w : World σ) :
    Outcome (Option GoError) × World σ :=
  match w.Client with
  | none => (Outcome.panic, w)
  | some c =>
    let res := r.del c key w.store
    (Outcome.ret res.1, { w with store := res.2, trace := w.trace ++ [Event.cmdDel key] })

/-- `FlushAll` of `cache.go`: `Client.FlushAll(Ctx).Err()`. -/
def FlushAll (r : Redis σ) (w : World σ) : Outcome (Option GoError) × World σ :=
  match w.Client with
  | none => (Outcome.panic, w)
  | some c =>
    let res := r.flushAll c w.store
    (Outcome.ret res.1, { w with store := res.2, trace := w.trace ++ [Event.cmdFlushAll] })

/-- Result of `GetCached`: the returned pair `(bool, error)`, the contents of the
destination `result` afterwards, and the program state afterwards. -/
structure Cached (δ σ : Type) where
  out : Outcome (Bool × Option GoError)
  dest : δ
  world : World σ

/-- `GetCached` of `cache.go`. -/
def GetCached {δ : Type} (r : Redis σ) (unmarshal : Unmarshal δ) (key : String) (result : δ)
    (w : World σ) : Cached δ σ :=
  match w.Client with
  | none => { out := Outcome.ret (false, none), dest := result, world := w }
  | some c =>
    let res := r.get c key w.store
    let w1 : World σ := { w with store := res.2, trace := w.trace ++ [Event.cmdGet key] }
    match res.1 with
    | Except.error err =>
      if err = GoError.redisNil then
        { out := Outcome.ret (false, none), dest := result, world := w1 }
      else
        { out := Outcome.ret (false, some err), dest := result, world := w1 }
    | Except.ok cachedData =>
      match unmarshal cachedData result with
      | (some err, d) => { out := Outcome.ret (false, some err), dest := d, world := w1 }
      | (none, d) => { out := Outcome.ret (true, none), dest := d, world := w1 }

end Package

/-! ## Bootstrap (`main.go`) -/

/-- Modelled from the spec: the helper `getEnv(key, fallback)` of package `main` is not among
the sources; environment variables are optional and an absent one gives the fallback. -/
def getEnv (env : Env) (key fallback : String) : String :=
  (env key).getD fallback

/-- `initializeCache` of `main.go` (log lines left out). -/
def initializeCache {σ : Type} (parseURL : ParseURL) (env : Env) (w : World σ) : World σ :=
  let redisURL := getEnv env "REDIS_URL" ""
  if redisURL ≠ "" then
    match SetupWithURL parseURL redisURL w with
    | (some _, w1) => w1
    | (none, w1) => w1
  else
    let redisAddr := getEnv env "REDIS_ADDR" ""
    if redisAddr ≠ "" then
      let redisPassword := getEnv env "REDIS_PASSWORD" ""
      let dbStr := getEnv env "REDIS_DB" ""
      let redisDB : Int :=
        if dbStr ≠ "" then
          match Atoi dbStr with
          | some db => db
          | none => 0
        else 0
      Setup redisAddr redisPassword redisDB w
    else w

/-! ## Concrete libraries, for closed examples

An in-memory store with a clock and fault injection behind the go-redis client, the
argument encoding of the go-redis writer, `json.Unmarshal` on scalar destinations and on
structs with scalar fields, and `redis.ParseURL` of go-redis v8.11 over Go `url.Parse`. -/

/-- One key of the in-memory store. -/
structure Entry where
  key : String
  payload : String
  expiresAt : Option Int
  deriving DecidableEq, Repr

/-- In-memory store: `fault = some e` makes every command fail with `e` (a connection or
protocol failure); `now` is the clock in nanoseconds. -/
structure MemStore where
  fault : Option GoError
  now : Int
  entries : List Entry
  deriving DecidableEq, Repr

/-- An entry is visible until its expiry time. -/
def Entry.live (now : Int) (e : Entry) : Bool :=
  match e.expiresAt with
  | none => true
  | some t => decide (now < t)

/-- The visible entry stored under a key, if any. -/
def MemStore.lookup (s : MemStore) (key : String) : Option Entry :=
  s.entries.find? (fun e => decide (e.key = key) && e.live s.now)

/-- Argument encoding of the go-redis writer (`WriteArg`): a string is written as its own
bytes, an integer in decimal, a boolean as `1` or `0`; a value of a type without
`encoding.BinaryMarshaler` is an error. -/
def writeArg : GoValue → Except GoError String
  | GoValue.scalar (Scalar.str s) => Except.ok s
  | GoValue.scalar (Scalar.int n) => Except.ok (toString n)
  | GoValue.scalar (Scalar.bool b) => Except.ok (if b then "1" else "0")
  | GoValue.composite t =>
    Except.error (GoError.other
      ("redis: can't marshal " ++ t ++ " (implement encoding.BinaryMarshaler)"))

/-- Lifetime the client requests for a positive TTL: whole seconds (`EX`) when the TTL is a
multiple of a second, else milliseconds (`PX`), at least one. -/
def expireAfter (ttl : Int) : Int :=
  if ttl < Second ∨ ttl % Second ≠ 0 then max 1 (ttl / 1000000) * 1000000
  else ttl / Second * Second

/-- Expiry time of a key written at `now` with `ttl`: set for a positive TTL, kept from the
entry being replaced for `redis.KeepTTL` (-1), none otherwise. -/
def expiryOf (now ttl : Int) (old : Option Entry) : Option Int :=
  if ttl > 0 then some (now + expireAfter ttl)
  else if ttl = -1 then old.bind Entry.expiresAt
  else none

/-- The go-redis client over the in-memory store. -/
def memRedis : Redis MemStore where
  get := fun _ key s =>
    match s.fault with
    | some e => (Except.error e, s)
    | none =>
      match s.lookup key with
      | some e => (Except.ok e.payload, s)
      | none => (Except.error GoError.redisNil, s)
  set := fun _ key value ttl s =>
    match s.fault with
    | some e => (some e, s)
    | none =>
      match writeArg value with
      | Except.error e => (some e, s)
      | Except.ok p =>
        (none, { s with entries :=
          { key := key, payload := p, expiresAt := expiryOf s.now ttl (s.lookup key) } ::
            s.entries.filter (fun e => decide (e.key ≠ key)) })
  del := fun _ key s =>
    match s.fault with
    | some e => (some e, s)
    | none => (none, { s with entries := s.entries.filter (fun e => decide (e.key ≠ key)) })
  flushAll := fun _ s =>
    match s.fault with
    | some e => (some e, s)
    | none => (none, { s with entries := [] })

/-- JSON insignificant whitespace. -/
def isJsonSpace (c : Char) : Bool :=
  c = ' ' || c = '\t' || c = '\n' || c = '\r'

/-- Payload without leading and trailing JSON whitespace. -/
def trimJson (cs : List Char) : List Char :=
  ((cs.dropWhile isJsonSpace).reverse.dropWhile isJsonSpace).reverse

/-- A JSON number without fraction and exponent: `-?(0|[1-9][0-9]*)`. -/
def isJsonInt (cs : List Char) : Bool :=
  let ds := if cs.head? = some '-' then cs.tail else cs
  !ds.isEmpty && ds.all Char.isDigit && (ds = ['0'] || ds.head? ≠ some '0')

/-- Value of one hexadecimal digit. -/
def hexDigit (c : Char) : Option Nat :=
  if c.isDigit then some (c.toNat - 48)
  else if 97 ≤ c.toNat ∧ c.toNat ≤ 102 then some (c.toNat - 87)
  else if 65 ≤ c.toNat ∧ c.toNat ≤ 70 then some (c.toNat - 55)
  else none

/-- Value of four hexadecimal digits. -/
def hex4 (a b c d : Char) : Option Nat :=
  match hexDigit a, hexDigit b, hexDigit c, hexDigit d with
  | some x, some y, some z, some w => some (((x * 16 + y) * 16 + z) * 16 + w)
  | _, _, _, _ => none

/-- Character of a single-letter JSON escape. -/
def simpleEscape (c : Char) : Option Char :=
  if c = '"' then some '"'
  else if c = '\\' then some '\\'
  else if c = '/' then some '/'
  else if c = 'b' then some (Char.ofNat 8)
  else if c = 'f' then some (Char.ofNat 12)
  else if c = 'n' then some '\n'
  else if c = 'r' then some '\r'
  else if c = 't' then some '\t'
  else none

/-- Contents of a JSON string literal, given the characters after the opening quote: escapes
are decoded, a surrogate pair is combined, an unpaired surrogate becomes U+FFFD; `none` when
the literal is malformed or is followed by anything. `fuel` bounds the length. -/
def unquoteBody : Nat → List Char → Option (List Char)
  | 0, _ => none
  | _ + 1, [] => none
  | fuel + 1, c :: rest =>
    if c = '"' then (if rest = [] then some [] else none)
    else if c = '\\' then
      match rest with
      | 'u' :: h1 :: h2 :: h3 :: h4 :: rest2 =>
        match hex4 h1 h2 h3 h4 with
        | none => none
        | some u =>
          let paired : Option (Nat × List Char) :=
            match rest2 with
            | '\\' :: 'u' :: l1 :: l2 :: l3 :: l4 :: rest3 =>
              match hex4 l1 l2 l3 l4 with
              | some v =>
                if 55296 ≤ u ∧ u < 56320 ∧ 56320 ≤ v ∧ v < 57344 then
                  some (65536 + (u - 55296) * 1024 + (v - 56320), rest3)
                else none
              | none => none
            | _ => none
          match paired with
          | some (cp, rest3) => (unquoteBody fuel rest3).map (fun t => Char.ofNat cp :: t)
          | none =>
            let ch := if 55296 ≤ u ∧ u < 57344 then Char.ofNat 65533 else Char.ofNat u
            (unquoteBody fuel rest2).map (fun t => ch :: t)
      | e :: rest2 =>
        match simpleEscape e with
        | some ch => (unquoteBody fuel rest2).map (fun t => ch :: t)
        | none => none
      | [] => none
    else if c.toNat < 32 then none
    else (unquoteBody fuel rest).map (fun t => c :: t)

/-- Error of `json.Unmarshal` (a syntax error or a type mismatch). -/
def jsonError : GoError := GoError.other "json: cannot unmarshal payload into destination"

/-- Go `json.Unmarshal` into a pointer to a `string`, `int` or `bool`: JSON `null` leaves the
destination as it is; otherwise the payload must be one JSON literal of the kind of the
destination (an integer within the 64-bit range for `int`); any other payload, malformed or
of another kind, is an error and leaves the destination as it is. -/
def jsonUnmarshal : Unmarshal Scalar := fun data dest =>
  let cs := trimJson data.toList
  if cs = ['n', 'u', 'l', 'l'] then (none, dest)
  else
    match dest with
    | Scalar.int _ =>
      if isJsonInt cs then
        match Atoi (String.mk cs) with
        | some n => (none, Scalar.int n)
        | none => (some jsonError, dest)
      else (some jsonError, dest)
    | Scalar.bool _ =>
      if cs = ['t', 'r', 'u', 'e'] then (none, Scalar.bool true)
      else if cs = ['f', 'a', 'l', 's', 'e'] then (none, Scalar.bool false)
      else (some jsonError, dest)
    | Scalar.str _ =>
      match cs with
      | '"' :: body =>
        match unquoteBody (body.length + 1) body with
        | some t => (none, Scalar.str (String.mk t))
        | none => (some jsonError, dest)
      | _ => (some jsonError, dest)

/-! ## `json.Unmarshal` into a struct with scalar fields -/

/-- Text without its leading JSON whitespace. -/
def skipJsonSpace (cs : List Char) : List Char :=
  cs.dropWhile isJsonSpace

/-- A JSON number at the start of the text, `-?(0|[1-9][0-9]*)(.[0-9]+)?([eE][+-]?[0-9]+)?`:
the text after it, `none` when there is no number. -/
def scanNumber (cs : List Char) : Option (List Char) :=
  let s1 := if cs.head? = some '-' then cs.tail else cs
  let s2 := if s1.head? = some '0' then s1.tail else s1.dropWhile Char.isDigit
  if (s1.head?.map Char.isDigit) ≠ some true then none
  else
    let fracDigits := if s2.head? = some '.' then (s2.drop 1).takeWhile Char.isDigit else []
    let s3 := if s2.head? = some '.' then (s2.drop 1).dropWhile Char.isDigit else s2
    if s2.head? = some '.' ∧ fracDigits = [] then none
    else if s3.head? = some 'e' ∨ s3.head? = some 'E' then
      let s4 := if (s3.drop 1).head? = some '+' ∨ (s3.drop 1).head? = some '-' then s3.drop 2
                else s3.drop 1
      if s4.takeWhile Char.isDigit = [] then none else some (s4.dropWhile Char.isDigit)
    else some s3

/-- A JSON string literal, given the characters after the opening quote: its decoded
contents and the text after the closing quote. `fuel` bounds the length. -/
def unquotePrefix : Nat → List Char → Option (List Char × List Char)
  | 0, _ => none
  | _ + 1, [] => none
  | fuel + 1, c :: rest =>
    if c = '"' then some ([], rest)
    else if c = '\\' then
      match rest with
      | 'u' :: h1 :: h2 :: h3 :: h4 :: rest2 =>
        match hex4 h1 h2 h3 h4 with
        | none => none
        | some u =>
          let paired : Option (Nat × List Char) :=
            match rest2 with
            | '\\' :: 'u' :: l1 :: l2 :: l3 :: l4 :: rest3 =>
              match hex4 l1 l2 l3 l4 with
              | some v =>
                if 55296 ≤ u ∧ u < 56320 ∧ 56320 ≤ v ∧ v < 57344 then
                  some (65536 + (u - 55296) * 1024 + (v - 56320), rest3)
                else none
              | none => none
            | _ => none
          match paired with
          | some (cp, rest3) =>
            (unquotePrefix fuel rest3).map (fun r => (Char.ofNat cp :: r.1, r.2))
          | none =>
            let ch := if 55296 ≤ u ∧ u < 57344 then Char.ofNat 65533 else Char.ofNat u
            (unquotePrefix fuel rest2).map (fun r => (ch :: r.1, r.2))
      | e :: rest2 =>
        match simpleEscape e with
        | some ch => (unquotePrefix fuel rest2).map (fun r => (ch :: r.1, r.2))
        | none => none
      | [] => none
    else if c.toNat < 32 then none
    else (unquotePrefix fuel rest).map (fun r => (c :: r.1, r.2))

/-- What the JSON scanner is to read next: one value, the members of an object from the
start of a member on, or the elements of an array from the start of an element on. -/
inductive ScanMode where
  | value
  | members
  | elements
  deriving DecidableEq, Repr

/-- The JSON scanner: reads what `mode` says at the start of the text and gives the text
after it, `none` on a syntax error. `fuel` bounds the number of values and members. -/
def scanJson : Nat → ScanMode → List Char → Option (List Char)
  | 0, _, _ => none
  | fuel + 1, ScanMode.value, cs =>
    match skipJsonSpace cs with
    | [] => none
    | c :: r =>
      if c = '"' then (unquotePrefix (r.length + 1) r).map Prod.snd
      else if c = '{' then
        if (skipJsonSpace r).head? = some '}' then some ((skipJsonSpace r).drop 1)
        else scanJson fuel ScanMode.members (skipJsonSpace r)
      else if c = '[' then
        if (skipJsonSpace r).head? = some ']' then some ((skipJsonSpace r).drop 1)
        else scanJson fuel ScanMode.elements r
      else if c = 't' then (if r.take 3 = ['r', 'u', 'e'] then some (r.drop 3) else none)
      else if c = 'f' then
        (if r.take 4 = ['a', 'l', 's', 'e'] then some (r.drop 4) else none)
      else if c = 'n' then (if r.take 3 = ['u', 'l', 'l'] then some (r.drop 3) else none)
      else if c = '-' ∨ c.isDigit then scanNumber (c :: r)
      else none
  | fuel + 1, ScanMode.members, cs =>
    match cs with
    | '"' :: r =>
      match unquotePrefix (r.length + 1) r with
      | none => none
      | some (_, r1) =>
        match skipJsonSpace r1 with
        | ':' :: r2 =>
          match scanJson fuel ScanMode.value r2 with
          | none => none
          | some r3 =>
            match skipJsonSpace r3 with
            | ',' :: r4 => scanJson fuel ScanMode.members (skipJsonSpace r4)
            | '}' :: r4 => some r4
            | _ => none
        | _ => none
    | _ => none
  | fuel + 1, ScanMode.elements, cs =>
    match scanJson fuel ScanMode.value cs with
    | none => none
    | some r1 =>
      match skipJsonSpace r1 with
      | ',' :: r2 => scanJson fuel ScanMode.elements r2
      | ']' :: r2 => some r2
      | _ => none

/-- The payload is one JSON value with nothing but whitespace around it (`json.Valid`). -/
def validJson (cs : List Char) : Bool :=
  match scanJson (cs.length + 1) ScanMode.value cs with
  | some rest => skipJsonSpace rest = []
  | none => false

/-- A struct destination: its fields by JSON name, each of scalar type. -/
abbrev Fields := List (String × Scalar)

/-- The field that a member name selects: the one of that name, else the first whose name
equals it when letter case is ignored (ASCII letters). -/
def findField (dest : Fields) (key : List Char) : Option String :=
  match dest.find? (fun f => decide (f.1.toList = key)) with
  | some f => some f.1
  | none =>
    (dest.find? (fun f => decide (f.1.toList.map Char.toLower = key.map Char.toLower))).map
      Prod.fst

/-- Decoding of the members of a valid JSON object, from the start of a member on, into the
fields of a struct: a member that selects a field is decoded into it as a scalar; a member
value of another kind leaves the field as it is and the first such error is kept; a member
that selects no field is skipped. -/
def decodeMembers : Nat → List Char → Fields → Option GoError → Option GoError × Fields
  | 0, _, dest, err => (err, dest)
  | fuel + 1, cs, dest, err =>
    match cs with
    | '"' :: r =>
      match unquotePrefix (r.length + 1) r with
      | none => (err, dest)
      | some (key, r1) =>
        let r2 := skipJsonSpace ((skipJsonSpace r1).drop 1)
        match scanJson (r2.length + 1) ScanMode.value r2 with
        | none => (err, dest)
        | some r3 =>
          let valueText := r2.take (r2.length - r3.length)
          let step : Option GoError × Fields :=
            match findField dest key with
            | none => (err, dest)
            | some name =>
              (dest.foldr (fun f acc =>
                if f.1 = name then
                  ((if acc.1.isNone then (jsonUnmarshal (String.mk valueText) f.2).1
                    else acc.1),
                   (f.1, (jsonUnmarshal (String.mk valueText) f.2).2) :: acc.2)
                else (acc.1, f :: acc.2)) (none, [])).map
                (fun e => if err.isSome then err else e) id
          match skipJsonSpace r3 with
          | ',' :: r4 => decodeMembers fuel (skipJsonSpace r4) step.2 step.1
          | _ => step
    | _ => (err, dest)

/-- Go `json.Unmarshal` into a pointer to a struct whose fields are of type `string`, `int`
or `bool`: a payload that is not valid JSON is an error; JSON `null` leaves the struct as
it is; a JSON object is decoded member by member; any other JSON value is an error. -/
def jsonUnmarshalStruct : Unmarshal Fields := fun data dest =>
  if validJson data.toList = false then (some jsonError, dest)
  else
    match skipJsonSpace data.toList with
    | 'n' :: _ => (none, dest)
    | '{' :: r => decodeMembers (r.length + 1) (skipJsonSpace r) dest none
    | _ => (some jsonError, dest)

/-! ## `redis.ParseURL`

The URL parser of go-redis v8.11 on top of Go `url.Parse`, as far as the address, the
password and the database index go. Texts are lists of characters; a byte decoded from a
percent-escape is kept as the character of that number, which is exact for ASCII. -/

/-- Go `strings.Cut` at a character: the text before its first occurrence and, when it
occurs, the text after it. -/
def cutAt (sep : Char) (cs : List Char) : List Char × Option (List Char) :=
  match cs.dropWhile (fun c => c ≠ sep) with
  | [] => (cs, none)
  | _ :: after => (cs.takeWhile (fun c => c ≠ sep), some after)

/-- Split at the last occurrence of a character (Go `strings.LastIndex`): the text before it
and the text after it. -/
def cutLast (sep : Char) (cs : List Char) : Option (List Char × List Char) :=
  match cs.reverse.dropWhile (fun c => c ≠ sep) with
  | [] => none
  | _ :: before => some (before.reverse, (cs.reverse.takeWhile (fun c => c ≠ sep)).reverse)

/-- Split before the first occurrence of `%25`. -/
def cutZone : List Char → Option (List Char × List Char)
  | [] => none
  | c :: rest =>
    if c = '%' ∧ rest.take 2 = ['2', '5'] then some ([], c :: rest)
    else (cutZone rest).map (fun r => (c :: r.1, r.2))

/-- Two hexadecimal digits of a byte. -/
def hexByte (n : Nat) : List Char :=
  [Nat.digitChar (n / 16 % 16), Nat.digitChar (n % 16)]

/-- Go `strconv.Quote` (the `%q` verb) on text of ASCII and printable characters. -/
def goQuote (cs : List Char) : String :=
  String.mk (['"'] ++ cs.flatMap (fun c =>
    if c = '"' then ['\\', '"']
    else if c = '\\' then ['\\', '\\']
    else if c = '\n' then ['\\', 'n']
    else if c = '\r' then ['\\', 'r']
    else if c = '\t' then ['\\', 't']
    else if c.toNat = 7 then ['\\', 'a']
    else if c.toNat = 8 then ['\\', 'b']
    else if c.toNat = 12 then ['\\', 'f']
    else if c.toNat = 11 then ['\\', 'v']
    else if c.toNat < 32 ∨ c.toNat = 127 then ['\\', 'x'] ++ hexByte c.toNat
    else [c]) ++ ['"'])

/-- The escaping modes of `net/url` that parsing uses. -/
inductive EscMode where
  | path
  | userPassword
  | host
  | zone
  | queryComponent
  | fragment
  deriving DecidableEq, Repr

/-- An ASCII character that may not stand unescaped in a host (`shouldEscape` in host
mode). -/
def hostMustEscape (c : Char) : Bool :=
  !(c.isAlphanum || c = '!' || c = '$' || c = '&' || c.toNat = 39 || c = '(' || c = ')'
    || c = '*' || c = '+' || c = ',' || c = ';' || c = '=' || c = ':' || c = '[' || c = ']'
    || c = '<' || c = '>' || c = '"' || c = '-' || c = '_' || c = '.' || c = '~')

/-- Go `net/url` `unescape`: percent-escapes are checked and decoded (a decoded byte is
kept as the character of that number); in host and zone mode the characters are checked as
well. -/
def unescape (mode : EscMode) : List Char → Except String (List Char)
  | [] => Except.ok []
  | '%' :: h1 :: h2 :: rest =>
    match hexDigit h1, hexDigit h2 with
    | some a, some b =>
      if mode = EscMode.host ∧ a < 8 ∧ ¬ (h1 = '2' ∧ h2 = '5') then
        Except.error ("invalid URL escape " ++ goQuote ['%', h1, h2])
      else if mode = EscMode.zone ∧ ¬ (h1 = '2' ∧ h2 = '5') ∧ a * 16 + b ≠ 32 ∧
          hostMustEscape (Char.ofNat (a * 16 + b)) then
        Except.error ("invalid URL escape " ++ goQuote ['%', h1, h2])
      else (unescape mode rest).map (fun t => Char.ofNat (a * 16 + b) :: t)
    | _, _ => Except.error ("invalid URL escape " ++ goQuote ['%', h1, h2])
  | '%' :: rest => Except.error ("invalid URL escape " ++ goQuote ('%' :: rest))
  | c :: rest =>
    if c = '+' then
      (unescape mode rest).map
        (fun t => (if mode = EscMode.queryComponent then ' ' else '+') :: t)
    else if (mode = EscMode.host ∨ mode = EscMode.zone) ∧ c.toNat < 128 ∧ hostMustEscape c then
      Except.error ("invalid character " ++ goQuote [c] ++ " in host name")
    else (unescape mode rest).map (fun t => c :: t)

/-- Parts of a Go `url.URL` that `redis.ParseURL` reads: `User` is the user name and, when
one is given, the password. -/
structure URL where
  Scheme : List Char
  User : Option (List Char × Option (List Char))
  Host : List Char
  Path : List Char
  RawQuery : List Char
  deriving DecidableEq, Repr

/-- Go `net/url` `getScheme`: the scheme before the first colon, when the text starts with a
letter and has only letters, digits, `+`, `-` and `.` up to that colon; `acc` is the text
read so far, reversed. -/
def getScheme (raw : List Char) : List Char → List Char →
    Except String (List Char × List Char)
  | _, [] => Except.ok ([], raw)
  | acc, c :: rest =>
    if c.isAlpha then getScheme raw (c :: acc) rest
    else if c.isDigit || c = '+' || c = '-' || c = '.' then
      if acc = [] then Except.ok ([], raw) else getScheme raw (c :: acc) rest
    else if c = ':' then
      if acc = [] then Except.error "missing protocol scheme"
      else Except.ok (acc.reverse, rest)
    else Except.ok ([], raw)

/-- Go `net/url` `validOptionalPort`: empty, or a colon and digits. -/
def validOptionalPort (port : List Char) : Bool :=
  match port with
  | [] => true
  | c :: ds => c = ':' && ds.all Char.isDigit

/-- Go `net/url` `validUserinfo`. -/
def validUserinfo (s : List Char) : Bool :=
  s.all (fun c => c.isAlphanum || c = '-' || c = '.' || c = '_' || c = ':' || c = '~'
    || c = '!' || c = '$' || c = '&' || c.toNat = 39 || c = '(' || c = ')' || c = '*'
    || c = '+' || c = ',' || c = ';' || c = '=' || c = '%' || c = '@')

/-- Go `net/url` `parseHost`. -/
def parseHost (host : List Char) : Except String (List Char) :=
  if host.head? = some '[' then
    match cutLast ']' host with
    | none => Except.error "missing ']' in host"
    | some (before, colonPort) =>
      if validOptionalPort colonPort = false then
        Except.error ("invalid port " ++ goQuote colonPort ++ " after host")
      else
        match cutZone before with
        | some (h1, zone) =>
          match unescape EscMode.host h1, unescape EscMode.zone zone,
              unescape EscMode.host (']' :: colonPort) with
          | Except.ok a, Except.ok b, Except.ok c => Except.ok (a ++ b ++ c)
          | Except.error e, _, _ => Except.error e
          | _, Except.error e, _ => Except.error e
          | _, _, Except.error e => Except.error e
        | none => unescape EscMode.host host
  else
    match cutLast ':' host with
    | some (_, port) =>
      if validOptionalPort (':' :: port) = false then
        Except.error ("invalid port " ++ goQuote (':' :: port) ++ " after host")
      else unescape EscMode.host host
    | none => unescape EscMode.host host

/-- Go `net/url` `parseAuthority`: user information before the last `@`, host after it. -/
def parseAuthority (authority : List Char) :
    Except String (Option (List Char × Option (List Char)) × List Char) :=
  match cutLast '@' authority with
  | none => (parseHost authority).map (fun h => (none, h))
  | some (userinfo, hostText) =>
    match parseHost hostText with
    | Except.error e => Except.error e
    | Except.ok host =>
      if validUserinfo userinfo = false then Except.error "net/url: invalid userinfo"
      else
        match cutAt ':' userinfo with
        | (_, none) =>
          (unescape EscMode.userPassword userinfo).map (fun u => (some (u, none), host))
        | (username, some password) =>
          match unescape EscMode.userPassword username,
              unescape EscMode.userPassword password with
          | Except.ok u, Except.ok p => Except.ok (some (u, some p), host)
          | Except.error e, _ => Except.error e
          | _, Except.error e => Except.error e

/-- Go `net/url` `parse` (not via a request), on a URL without its fragment. -/
def urlParseNoFragment (rawURL : List Char) : Except String URL :=
  if rawURL.any (fun c => c.toNat < 32 || c.toNat = 127) then
    Except.error "net/url: invalid control character in URL"
  else if rawURL = ['*'] then
    Except.ok { Scheme := [], User := none, Host := [], Path := ['*'], RawQuery := [] }
  else
    match getScheme rawURL [] rawURL with
    | Except.error e => Except.error e
    | Except.ok (scheme0, rest0) =>
      let scheme := scheme0.map Char.toLower
      let split : List Char × List Char :=
        if rest0.getLast? = some '?' ∧ rest0.count '?' = 1 then (rest0.dropLast, [])
        else ((cutAt '?' rest0).1, ((cutAt '?' rest0).2).getD [])
      let rest := split.1
      let query := split.2
      if rest.head? ≠ some '/' ∧ scheme ≠ [] then
        Except.ok { Scheme := scheme, User := none, Host := [], Path := [], RawQuery := query }
      else if rest.head? ≠ some '/' ∧ (cutAt '/' rest).1.contains ':' then
        Except.error "first path segment in URL cannot contain colon"
      else if (scheme ≠ [] ∨ rest.take 3 ≠ ['/', '/', '/']) ∧ rest.take 2 = ['/', '/'] then
        let auth := (rest.drop 2).takeWhile (fun c => c ≠ '/')
        let pathText := (rest.drop 2).dropWhile (fun c => c ≠ '/')
        match parseAuthority auth with
        | Except.error e => Except.error e
        | Except.ok (user, host) =>
          match unescape EscMode.path pathText with
          | Except.error e => Except.error e
          | Except.ok path =>
            Except.ok { Scheme := scheme, User := user, Host := host, Path := path,
                        RawQuery := query }
      else
        match unescape EscMode.path rest with
        | Except.error e => Except.error e
        | Except.ok path =>
          Except.ok { Scheme := scheme, User := none, Host := [], Path := path,
                      RawQuery := query }

/-- Go `url.Parse`: the fragment after the first `#` is cut off and checked, the rest is
parsed; an error carries the text that was being parsed. -/
def urlParse (rawURL : String) : Except GoError URL :=
  let u := (cutAt '#' rawURL.toList).1
  match urlParseNoFragment u with
  | Except.error e => Except.error (GoError.other ("parse " ++ goQuote u ++ ": " ++ e))
  | Except.ok url =>
    match (cutAt '#' rawURL.toList).2 with
    | none => Except.ok url
    | some frag =>
      match unescape EscMode.fragment frag with
      | Except.error e =>
        Except.error (GoError.other ("parse " ++ goQuote rawURL.toList ++ ": " ++ e))
      | Except.ok _ => Except.ok url

/-- Go `net.SplitHostPort`; `none` stands for an error. -/
def splitHostPort (hostport : List Char) : Option (List Char × List Char) :=
  match cutLast ':' hostport with
  | none => none
  | some (beforeColon, port) =>
    if hostport.head? = some '[' then
      match (hostport.drop 1).dropWhile (fun c => c ≠ ']') with
      | [] => none
      | _ :: tail =>
        if tail = ':' :: port then
          if (hostport.drop 1).contains '[' ∨ tail.contains ']' then none
          else some ((hostport.drop 1).takeWhile (fun c => c ≠ ']'), port)
        else none
    else if beforeColon.contains ':' then none
    else if hostport.contains '[' ∨ hostport.contains ']' then none
    else some (beforeColon, port)

/-- Go `net.JoinHostPort`. -/
def joinHostPort (host port : List Char) : List Char :=
  if host.contains ':' then ['['] ++ host ++ [']', ':'] ++ port else host ++ [':'] ++ port

/-- Text of the error of `strconv.Atoi` on an input it rejects. -/
def atoiError (s : List Char) : String :=
  let ds := if s.head? = some '-' ∨ s.head? = some '+' then s.tail else s
  "strconv.Atoi: parsing " ++ goQuote s ++ ": " ++
    (if ds ≠ [] ∧ ds.all Char.isDigit then "value out of range" else "invalid syntax")

/-- Go `url.ParseQuery` as used by `URL.Query`: the pairs that parse, in order. -/
def parseQuery (query : List Char) : List (List Char × List Char) :=
  (query.splitOn '&').filterMap (fun pair =>
    if pair.contains ';' ∨ pair = [] then none
    else
      match unescape EscMode.queryComponent (cutAt '=' pair).1,
          unescape EscMode.queryComponent ((cutAt '=' pair).2.getD []) with
      | Except.ok k, Except.ok v => some (k, v)
      | _, _ => none)

/-- The value `queryOptions.string` gives for a name: the last one, the empty text when the
name is absent. -/
def queryString (pairs : List (List Char × List Char)) (name : String) : List Char :=
  ((pairs.filter (fun kv => decide (kv.1 = name.toList))).getLast?.map Prod.snd).getD []

/-- Nanoseconds of a unit of `time.ParseDuration`. -/
def durationUnit (u : List Char) : Option Nat :=
  if u = ['n', 's'] then some 1
  else if u = ['u', 's'] ∨ u = [Char.ofNat 181, 's'] ∨ u = [Char.ofNat 956, 's'] then some 1000
  else if u = ['m', 's'] then some 1000000
  else if u = ['s'] then some 1000000000
  else if u = ['m'] then some 60000000000
  else if u = ['h'] then some 3600000000000
  else none

/-- The loop of Go `time.ParseDuration` over the terms of a duration: `none` when all terms
are well formed and the total fits, else the text of the error; `neg` tells a leading minus
sign, `total` is the sum so far in nanoseconds (fractions left out), `fuel` bounds the
number of terms. -/
def durationTerms (orig : List Char) (neg : Bool) : Nat → Nat → List Char → Option String
  | 0, _, _ => some ("time: invalid duration " ++ goQuote orig)
  | fuel + 1, total, s =>
    if s = [] then
      if neg = false ∧ total > 9223372036854775807 then
        some ("time: invalid duration " ++ goQuote orig)
      else none
    else if s.head? ≠ some '.' ∧ (s.head?.map Char.isDigit) ≠ some true then
      some ("time: invalid duration " ++ goQuote orig)
    else
      let pre := s.takeWhile Char.isDigit
      let s1 := s.dropWhile Char.isDigit
      let post := if s1.head? = some '.' then (s1.drop 1).takeWhile Char.isDigit else []
      let s2 := if s1.head? = some '.' then (s1.drop 1).dropWhile Char.isDigit else s1
      let unit := s2.takeWhile (fun c => c ≠ '.' ∧ ¬ c.isDigit)
      let s3 := s2.dropWhile (fun c => c ≠ '.' ∧ ¬ c.isDigit)
      if digitsValue pre > 9223372036854775808 then
        some ("time: invalid duration " ++ goQuote orig)
      else if pre = [] ∧ post = [] then
        some ("time: invalid duration " ++ goQuote orig)
      else if unit = [] then
        some ("time: missing unit in duration " ++ goQuote orig)
      else
        match durationUnit unit with
        | none =>
          some ("time: unknown unit " ++ goQuote unit ++ " in duration " ++ goQuote orig)
        | some n =>
          if digitsValue pre > 9223372036854775808 / n ∨
              total + digitsValue pre * n > 9223372036854775808 then
            some ("time: invalid duration " ++ goQuote orig)
          else durationTerms orig neg fuel (total + digitsValue pre * n) s3

/-- Go `time.ParseDuration`, as far as its error goes: `none` when the text is a duration.
The fractional parts of the terms do not count towards the overflow check. -/
def parseDurationError (orig : List Char) : Option String :=
  let s := if orig.head? = some '-' ∨ orig.head? = some '+' then orig.tail else orig
  if s = ['0'] then none
  else if s = [] then some ("time: invalid duration " ++ goQuote orig)
  else durationTerms orig (decide (orig.head? = some '-')) (s.length + 2) 0 s

/-- The kinds of connection options that `redis.ParseURL` reads from the query. -/
inductive OptionKind where
  | int
  | duration
  | bool
  deriving DecidableEq, Repr

/-- The connection options of go-redis v8.11 besides `db`, in the order they are read. -/
def connOptions : List (String × OptionKind) :=
  [("max_retries", OptionKind.int), ("min_retry_backoff", OptionKind.duration),
   ("max_retry_backoff", OptionKind.duration), ("dial_timeout", OptionKind.duration),
   ("read_timeout", OptionKind.duration), ("write_timeout", OptionKind.duration),
   ("pool_fifo", OptionKind.bool), ("pool_size", OptionKind.int),
   ("min_idle_conns", OptionKind.int), ("max_conn_age", OptionKind.duration),
   ("pool_timeout", OptionKind.duration), ("idle_timeout", OptionKind.duration),
   ("idle_check_frequency", OptionKind.duration)]

/-- The error, if any, of reading one connection option from its value. -/
def optionError (name : String) (kind : OptionKind) (v : List Char) : Option String :=
  if v = [] then none
  else
    match kind with
    | OptionKind.int =>
      if (Atoi (String.mk v)).isSome then none
      else some ("redis: invalid " ++ name ++ " number: " ++ atoiError v)
    | OptionKind.duration =>
      if (Atoi (String.mk v)).isSome then none
      else (parseDurationError v).map
        (fun e => "redis: invalid " ++ name ++ " duration: " ++ e)
    | OptionKind.bool =>
      if v = ['t', 'r', 'u', 'e'] ∨ v = ['1'] ∨ v = ['f', 'a', 'l', 's', 'e'] ∨ v = ['0'] then
        none
      else some ("redis: invalid " ++ name ++
        " boolean: expected true/false/1/0 or an empty string, got " ++ goQuote v)

/-- Lexicographic order of texts by character code. -/
def textLt : List Char → List Char → Bool
  | _, [] => false
  | [], _ :: _ => true
  | a :: as, b :: bs => a.toNat < b.toNat || (a.toNat = b.toNat && textLt as bs)

/-- Insertion of a name into a sorted list of names. -/
def insertSorted (a : List Char) : List (List Char) → List (List Char)
  | [] => [a]
  | b :: rest => if textLt a b then a :: b :: rest else b :: insertSorted a rest

/-- The names of the query that are not connection options, sorted, each once. -/
def unexpectedOptions (pairs : List (List Char × List Char)) : List (List Char) :=
  ((pairs.map Prod.fst).eraseDups.filter
    (fun k => decide (k ≠ ['d', 'b']) &&
      !(connOptions.map (fun nk => nk.1.toList)).contains k)).foldr insertSorted []

/-- Go `strings.Join` with the separator `, `. -/
def joinComma : List (List Char) → List Char
  | [] => []
  | [a] => a
  | a :: b :: rest => a ++ [',', ' '] ++ joinComma (b :: rest)

/-- `setupConnParams` of go-redis v8.11: `db` in the query replaces the database index; the
other options are checked; a name that is no option is an error. -/
def setupConnParams (u : URL) (o : Options) : Except GoError Options :=
  let pairs := parseQuery u.RawQuery
  let dbText := queryString pairs "db"
  if dbText ≠ [] ∧ (Atoi (String.mk dbText)).isNone then
    Except.error (GoError.other ("redis: invalid database number: " ++ atoiError dbText))
  else
    let o1 : Options :=
      match Atoi (String.mk dbText) with
      | some db => { o with DB := db }
      | none => o
    match connOptions.filterMap (fun nk => optionError nk.1 nk.2 (queryString pairs nk.1)) with
    | e :: _ => Except.error (GoError.other e)
    | [] =>
      if unexpectedOptions pairs = [] then Except.ok o1
      else Except.error (GoError.other
        ("redis: unexpected option: " ++ String.mk (joinComma (unexpectedOptions pairs))))

/-- Password of the user information of a URL (`getUserPassword`), empty when absent. -/
def urlPassword (u : URL) : String :=
  match u.User with
  | some (_, some p) => String.mk p
  | _ => ""

/-- `setupTCPConn` of go-redis v8.11. -/
def setupTCPConn (u : URL) : Except GoError Options :=
  let hp : List Char × List Char :=
    match splitHostPort u.Host with
    | some r => r
    | none => (u.Host, [])
  let h := if hp.1 = [] then "localhost".toList else hp.1
  let p := if hp.2 = [] then "6379".toList else hp.2
  let o : Options := { Addr := String.mk (joinHostPort h p), Password := urlPassword u, DB := 0 }
  match (u.Path.splitOn '/').filter (fun f => decide (f ≠ [])) with
  | [] => setupConnParams u o
  | [f] =>
    match Atoi (String.mk f) with
    | some db => setupConnParams u { o with DB := db }
    | none => Except.error (GoError.other ("redis: invalid database number: " ++ goQuote f))
  | _ => Except.error (GoError.other ("redis: invalid URL path: " ++ String.mk u.Path))

/-- `setupUnixConn` of go-redis v8.11: the socket path may not be empty or blank (ASCII
white space). -/
def setupUnixConn (u : URL) : Except GoError Options :=
  if u.Path.all (fun c => (9 ≤ c.toNat ∧ c.toNat ≤ 13) ∨ c = ' ') then
    Except.error (GoError.other "redis: empty unix socket path")
  else setupConnParams u { Addr := String.mk u.Path, Password := urlPassword u, DB := 0 }

/-- `redis.ParseURL` of go-redis v8.11, as far as the address, the password and the
database index go. -/
def parseRedisURL : ParseURL := fun redisURL =>
  match urlParse redisURL with
  | Except.error e => Except.error e
  | Except.ok u =>
    if u.Scheme = ['r', 'e', 'd', 'i', 's'] ∨ u.Scheme = ['r', 'e', 'd', 'i', 's', 's'] then
      setupTCPConn u
    else if u.Scheme = ['u', 'n', 'i', 'x'] then setupUnixConn u
    else Except.error (GoError.other ("redis: invalid URL scheme: " ++ String.mk u.Scheme))

/-- A reachable, empty store at time 0, with `Client` unset and nothing called yet. -/
def world0 : World MemStore :=
  { Client := none, store := { fault := none, now := 0, entries := [] }, trace := [] }

/-- Environment given by a list of variable bindings. -/
def envOf (vars : List (String × String)) : Env :=
  fun k => (vars.find? (fun kv => decide (kv.1 = k))).map Prod.snd

/-- The store of `world0` with a client set up by parameters. -/
def world1 : World MemStore := Setup "localhost:6379" "" 0 world0

/-- As `world1`, with the store failing every command with a connection error. -/
def worldDown : World MemStore :=
  { world1 with store := { fault := some (GoError.other "dial tcp: connection refused"),
                           now := 0, entries := [] } }

/-- As `world1`, with the payload `42` stored under `answer` and `hello` under `greeting`. -/
def worldFilled : World MemStore :=
  { world1 with store := { fault := none, now := 0, entries :=
      [{ key := "answer", payload := "42", expiresAt := some 60000000000 },
       { key := "greeting", payload := "hello", expiresAt := none }] } }

/-- Environment with a malformed `REDIS_URL` and a `REDIS_ADDR`. -/
def envBadURL : Env :=
  envOf [("REDIS_URL", "not-a-url"), ("REDIS_ADDR", "localhost:6379")]

/-- Environment with `REDIS_ADDR`, `REDIS_PASSWORD` and a non-numeric `REDIS_DB` only. -/
def envAddr : Env :=
  envOf [("REDIS_ADDR", "localhost:6379"), ("REDIS_PASSWORD", "secret"), ("REDIS_DB", "x")]

/-- Environment with a well-formed `REDIS_URL` and a `REDIS_ADDR`. -/
def envURL : Env :=
  envOf [("REDIS_URL", "redis://cache:6379/2"), ("REDIS_ADDR", "localhost:6379")]

/-- The payload, surrounding whitespace removed, is one JSON literal of the kind of the
scalar destination: an integer within the 64-bit range for `int`, `true` or `false` for
`bool`, a well-formed string literal for `string`. -/
def isLiteralOf (dest : Scalar) (cs : List Char) : Bool :=
  match dest with
  | Scalar.int _ => isJsonInt cs && (Atoi (String.mk cs)).isSome
  | Scalar.bool _ => cs = ['t', 'r', 'u', 'e'] || cs = ['f', 'a', 'l', 's', 'e']
  | Scalar.str _ =>
    match cs with
    | '"' :: body => (unquoteBody (body.length + 1) body).isSome
    | _ => false

/-- The first character can begin a JSON string, number, boolean or null. -/
def beginsScalar (cs : List Char) : Bool :=
  match cs with
  | [] => false
  | c :: _ => c = '"' || c = '-' || c.isDigit || c = 't' || c = 'f' || c = 'n'

/-- As `world1`, with the JSON payload `null` stored under `nothing` and a JSON object under
`object`. -/
def worldNull : World MemStore :=
  { world1 with store := { fault := none, now := 0, entries :=
      [{ key := "nothing", payload := "null", expiresAt := none },
       { key := "object", payload := "\x7b\"a\":1\x7d", expiresAt := none }] } }

/-- A store whose immediate read returns what its client wrote: whenever a write with a
positive TTL succeeds, the client has encoded the value as some payload, and a read of the
key in the state right after the write returns that payload. -/
def ReadsBack {σ : Type} (r : Redis σ) (encode : GoValue → Except GoError String) : Prop :=
  ∀ (c : Options) (key : String) (value : GoValue) (ttl : Int) (s : σ), 0 < ttl →
    (r.set c key value ttl s).1 = none →
    ∃ p : String, encode value = Except.ok p ∧
      (r.get c key (r.set c key value ttl s).2).1 = Except.ok p

/-! ## Properties of the TTL policy -/

theorem wrap64_of_range (x : Int) (h1 : int64Min ≤ x) (h2 : x ≤ int64Max) : wrap64 x = x := by
  unfold int64Min at h1
  unfold int64Max at h2
  unfold wrap64
  omega

theorem durMul_seconds (n : Int) (h1 : 0 < n) (h2 : n ≤ 9223372036) :
    durMul n Second = n * Second := by
  unfold durMul Second
  apply wrap64_of_range
  · unfold int64Min; omega
  · unfold int64Max; omega

theorem digitChar_spec : ∀ k : Fin 10, (Nat.digitChar k.val).isDigit = true ∧
    (Nat.digitChar k.val).toNat - 48 = k.val ∧ Nat.digitChar k.val ≠ '-' ∧
    Nat.digitChar k.val ≠ '+' := by
  decide

theorem digitsValue_append (xs : List Char) (c : Char) :
    digitsValue (xs ++ [c]) = digitsValue xs * 10 + (c.toNat - 48) := by
  unfold digitsValue
  rw [List.foldl_append]
  rfl

theorem digitChar_zero : ∀ k : Fin 10, (Nat.digitChar k.val = '0' ↔ k.val = 0) := by
  decide

theorem toDigitsCore_canonical (fuel : Nat) : ∀ (n : Nat) (ds : List Char), n < fuel →
    ∃ pre : List Char, Nat.toDigitsCore 10 fuel n ds = pre ++ ds ∧ IsDecimalOf pre n ∧
      (pre = ['0'] ∨ pre.head? ≠ some '0') := by
  induction fuel with
  | zero => intro n ds h; omega
  | succ fuel ih =>
    intro n ds h
    have hd := digitChar_spec ⟨n % 10, Nat.mod_lt n (by decide)⟩
    have hz := digitChar_zero ⟨n % 10, Nat.mod_lt n (by decide)⟩
    simp only at hd hz
    unfold Nat.toDigitsCore
    by_cases h0 : n / 10 = 0
    · simp only [h0, if_true]
      refine ⟨[Nat.digitChar (n % 10)], rfl, ⟨by simp, by simp [hd.1], ?_, ?_, ?_⟩, ?_⟩
      · simpa using hd.2.2.1
      · simpa using hd.2.2.2
      · simp only [digitsValue, List.foldl, hd.2.1]
        omega
      · by_cases hn : n % 10 = 0
        · left; rw [hz.2 hn]
        · right
          simp only [List.head?_cons, ne_eq, Option.some.injEq]
          exact fun h => hn (hz.1 h)
    · simp only [h0, if_false]
      obtain ⟨pre, hpre, ⟨hne, hall, hm, hp, hv⟩, hc⟩ :=
        ih (n / 10) (Nat.digitChar (n % 10) :: ds) (by omega)
      have hc2 : pre.head? ≠ some '0' := by
        rcases hc with hc | hc
        · exfalso
          rw [hc] at hv
          exact h0 hv.symm
        · exact hc
      refine ⟨pre ++ [Nat.digitChar (n % 10)], by rw [hpre]; simp, ⟨by simp, ?_, ?_, ?_, ?_⟩, ?_⟩
      · simp [List.all_append, hall, hd.1]
      · cases pre with
        | nil => exact absurd rfl hne
        | cons a t => simpa using hm
      · cases pre with
        | nil => exact absurd rfl hne
        | cons a t => simpa using hp
      · rw [digitsValue_append, hv, hd.2.1]
        omega
      · right
        cases pre with
        | nil => exact absurd rfl hne
        | cons a t => simpa using hc2

theorem repr_canonical (n : Nat) :
    IsDecimalOf (Nat.repr n).toList n ∧
      ((Nat.repr n).toList = ['0'] ∨ (Nat.repr n).toList.head? ≠ some '0') := by
  obtain ⟨pre, hpre, h⟩ := toDigitsCore_canonical (n + 1) n [] (by omega)
  have : (Nat.repr n).toList = pre := by
    unfold Nat.repr Nat.toDigits
    rw [hpre]
    simp [List.asString]
  rw [this]
  exact h

/-- The usual decimal numeral of a natural number is a decimal numeral of it. -/
theorem toString_decimal (n : Nat) : IsDecimalOf (toString n).toList n :=
  (repr_canonical n).1

/-- `Atoi` reads a decimal numeral of a number within the `int` range as that number. -/
theorem Atoi_of_decimal (s : String) (n : Nat) (h : IsDecimalOf s.toList n)
    (hr : (n : Int) ≤ int64Max) : Atoi s = some (n : Int) := by
  obtain ⟨hne, hall, hm, hp, hv⟩ := h
  unfold Atoi
  have hmin : int64Min ≤ (n : Int) := by unfold int64Min; omega
  have hs : s.toList = s.data := rfl
  rw [hs] at hne hall hm hp hv
  simp [hm, hp, hne, hall, hv, hr, hmin]

/-- `Atoi` rejects a decimal numeral of a number above the `int` range. -/
theorem Atoi_of_decimal_large (s : String) (n : Nat) (h : IsDecimalOf s.toList n)
    (hr : int64Max < (n : Int)) : Atoi s = none := by
  obtain ⟨hne, hall, hm, hp, hv⟩ := h
  unfold Atoi
  have hs : s.toList = s.data := rfl
  rw [hs] at hne hall hm hp hv
  simp [hm, hp, hne, hall, hv]
  intro _
  exact hr

theorem GetTTL_of_ne_character (env : Env) (c : String) (h : c ≠ "character") :
    GetTTL env c =
      if c = "world" then 10 * Second
      else if c = "guild" then 10 * Second
      else 60 * Second := by
  unfold GetTTL
  rw [if_neg h]
  by_cases h1 : c = "world"
  · rw [if_pos h1, if_pos h1]
  · rw [if_neg h1, if_neg h1]
    by_cases h2 : c = "guild"
    · rw [if_pos h2, if_pos h2]
    · rw [if_neg h2, if_neg h2]
      by_cases h3 : c = "highscores"
      · rw [if_pos h3]
        decide
      · rw [if_neg h3]

theorem GetTTL_character_eq (env : Env) :
    GetTTL env "character" =
      match Atoi (Getenv env "CACHE_TTL_CHARACTER") with
      | some ttl => if ttl > 0 then durMul ttl Second else 60 * Second
      | none => 60 * Second := by
  unfold GetTTL
  rw [if_pos rfl]
  by_cases h : Getenv env "CACHE_TTL_CHARACTER" = ""
  · rw [h]
    decide
  · simp only [ne_eq, h, not_false_eq_true, if_true]

/-- C5 (as amended): with `s` the value of `CACHE_TTL_CHARACTER` at the call (the empty string
when unset): if `strconv.Atoi` reads `s` as an integer `n` with `0 < n ≤ 9223372036`, as it
does when `s` is a decimal numeral of such an `n`, then `GetTTL "character"` is `n` seconds;
if `s` is unset or empty, is rejected by `strconv.Atoi` (non-numeric, or a numeral above the
64-bit range), or is an integer `n ≤ 0`, it is 60 seconds. The result depends on the
environment of the call only. -/
theorem GetTTL_character_override (env : Env) :
    (∀ n : Int, Atoi (Getenv env "CACHE_TTL_CHARACTER") = some n → 0 < n → n ≤ 9223372036 →
      GetTTL env "character" = n * Second) ∧
    (∀ (s : String) (n : Nat), env "CACHE_TTL_CHARACTER" = some s → IsDecimalOf s.toList n →
      0 < n → n ≤ 9223372036 → GetTTL env "character" = (n : Int) * Second) ∧
    (∀ (s : String) (n : Nat), env "CACHE_TTL_CHARACTER" = some s → IsDecimalOf s.toList n →
      int64Max < (n : Int) → GetTTL env "character" = 60 * Second) ∧
    (env "CACHE_TTL_CHARACTER" = none ∨ env "CACHE_TTL_CHARACTER" = some "" ∨
        Atoi (Getenv env "CACHE_TTL_CHARACTER") = none ∨
        (∃ n : Int, Atoi (Getenv env "CACHE_TTL_CHARACTER") = some n ∧ n ≤ 0) →
      GetTTL env "character" = 60 * Second) := by
  have hpos : ∀ n : Int, Atoi (Getenv env "CACHE_TTL_CHARACTER") = some n → 0 < n →
      n ≤ 9223372036 → GetTTL env "character" = n * Second := by
    intro n hn hpos hle
    rw [GetTTL_character_eq, hn]
    simp only [gt_iff_lt, hpos, if_true]
    exact durMul_seconds n hpos hle
  have hnone : Atoi (Getenv env "CACHE_TTL_CHARACTER") = none →
      GetTTL env "character" = 60 * Second := by
    intro h
    rw [GetTTL_character_eq, h]
  refine ⟨hpos, ?_, ?_, ?_⟩
  · intro s n hs hdec h0 hle
    have hg : Getenv env "CACHE_TTL_CHARACTER" = s := by simp [Getenv, hs]
    have hr : (n : Int) ≤ int64Max := by unfold int64Max; omega
    exact hpos n (by rw [hg]; exact Atoi_of_decimal s n hdec hr) (by omega) (by omega)
  · intro s n hs hdec hbig
    have hg : Getenv env "CACHE_TTL_CHARACTER" = s := by simp [Getenv, hs]
    exact hnone (by rw [hg]; exact Atoi_of_decimal_large s n hdec hbig)
  · intro h
    have hempty : Atoi "" = none := by decide
    rcases h with h | h | h | ⟨n, hn, hle⟩
    · exact hnone (by simp only [Getenv, h, Option.getD_none, hempty])
    · exact hnone (by simp only [Getenv, h, Option.getD_some, hempty])
    · exact hnone h
    · rw [GetTTL_character_eq, hn]
      have : ¬ n > 0 := by omega
      simp only [this, if_false]

/-- C5 witness: the override `120` gives 120 seconds; `-5`, `abc`, `0`, the empty string and
an unset variable give 60 seconds; each call answers for its own environment. -/
theorem GetTTL_character_override_witness :
    GetTTL (envWith "CACHE_TTL_CHARACTER" "120") "character" = 120 * Second ∧
    GetTTL (envWith "CACHE_TTL_CHARACTER" "-5") "character" = 60 * Second ∧
    GetTTL (envWith "CACHE_TTL_CHARACTER" "abc") "character" = 60 * Second ∧
    GetTTL (envWith "CACHE_TTL_CHARACTER" "0") "character" = 60 * Second ∧
    GetTTL (envWith "CACHE_TTL_CHARACTER" "") "character" = 60 * Second ∧
    GetTTL envEmpty "character" = 60 * Second :=
  ⟨(GetTTL_character_override (envWith "CACHE_TTL_CHARACTER" "120")).2.1 "120" 120
      (by decide) ⟨by decide, by decide, by decide, by decide, by decide⟩
      (by decide) (by decide),
    (GetTTL_character_override (envWith "CACHE_TTL_CHARACTER" "-5")).2.2.2
      (Or.inr (Or.inr (Or.inr ⟨-5, by decide, by decide⟩))),
    (GetTTL_character_override (envWith "CACHE_TTL_CHARACTER" "abc")).2.2.2
      (Or.inr (Or.inr (Or.inl (by decide)))),
    (GetTTL_character_override (envWith "CACHE_TTL_CHARACTER" "0")).2.2.2
      (Or.inr (Or.inr (Or.inr ⟨0, by decide, by decide⟩))),
    (GetTTL_character_override (envWith "CACHE_TTL_CHARACTER" "")).2.2.2
      (Or.inr (Or.inl (by decide))),
    (GetTTL_character_override envEmpty).2.2.2 (Or.inl (by decide))⟩

/-- C5 (as stated) fails: the override `99999999999999999999` is a decimal numeral of a
positive integer count of seconds, yet `GetTTL "character"` is 60 seconds (the value does not
fit `int`, so `strconv.Atoi` rejects it); and the override `9223372037` is accepted, yet the
result is not 9223372037 seconds (the multiplication by `time.Second` wraps). -/
theorem GetTTL_character_not_n_seconds :
    (IsDecimalOf "99999999999999999999".toList 99999999999999999999 ∧
      Atoi "99999999999999999999" = none ∧
      GetTTL (envWith "CACHE_TTL_CHARACTER" "99999999999999999999") "character" = 60 * Second ∧
      GetTTL (envWith "CACHE_TTL_CHARACTER" "99999999999999999999") "character" ≠
        99999999999999999999 * Second) ∧
    (Atoi "9223372037" = some 9223372037 ∧
      GetTTL (envWith "CACHE_TTL_CHARACTER" "9223372037") "character" ≠
        9223372037 * Second) := by
  refine ⟨⟨⟨?_, ?_, ?_, ?_, ?_⟩, ?_, ?_, ?_⟩, ?_, ?_⟩ <;> decide

/-- C6 (code defect): with the override `9223372037` the result of `GetTTL "character"` is
negative (-9223372036709551616 ns), and with the override `36028797018963968` it is zero: the
64-bit multiplication `time.Duration(ttl) * time.Second` wraps around. -/
theorem GetTTL_character_not_positive :
    GetTTL (envWith "CACHE_TTL_CHARACTER" "9223372037") "character" = -9223372036709551616 ∧
    GetTTL (envWith "CACHE_TTL_CHARACTER" "9223372037") "character" < 0 ∧
    GetTTL (envWith "CACHE_TTL_CHARACTER" "36028797018963968") "character" = 0 := by
  decide

/-- C7: in every environment `GetTTL "world"` and `GetTTL "guild"` are 10 seconds,
`GetTTL "highscores"` is 60 seconds, and `GetTTL c` is 60 seconds for every category `c` other
than the four known ones (such as `unknown-category`, the empty string, `Character`); the
result for a category other than `character` is the same in every two environments, while
the result for `character` does depend on the environment. -/
theorem GetTTL_table (env : Env) :
    GetTTL env "world" = 10 * Second ∧
    GetTTL env "guild" = 10 * Second ∧
    GetTTL env "highscores" = 60 * Second ∧
    (∀ c : String, c ≠ "character" → c ≠ "world" → c ≠ "guild" → c ≠ "highscores" →
      GetTTL env c = 60 * Second) ∧
    GetTTL env "unknown-category" = 60 * Second ∧
    GetTTL env "" = 60 * Second ∧
    GetTTL env "Character" = 60 * Second ∧
    (∀ (env2 : Env) (c : String), c ≠ "character" → GetTTL env c = GetTTL env2 c) ∧
    (∃ e1 e2 : Env, GetTTL e1 "character" ≠ GetTTL e2 "character") := by
  have hdef : ∀ c : String, c ≠ "character" → c ≠ "world" → c ≠ "guild" →
      c ≠ "highscores" → GetTTL env c = 60 * Second := by
    intro c h0 h1 h2 _
    rw [GetTTL_of_ne_character env c h0, if_neg h1, if_neg h2]
  refine ⟨?_, ?_, ?_, hdef, ?_, ?_, ?_, ?_, ?_⟩
  · rw [GetTTL_of_ne_character env "world" (by decide)]; decide
  · rw [GetTTL_of_ne_character env "guild" (by decide)]; decide
  · rw [GetTTL_of_ne_character env "highscores" (by decide)]; decide
  · exact hdef "unknown-category" (by decide) (by decide) (by decide) (by decide)
  · exact hdef "" (by decide) (by decide) (by decide) (by decide)
  · exact hdef "Character" (by decide) (by decide) (by decide) (by decide)
  · intro env2 c h
    rw [GetTTL_of_ne_character env c h, GetTTL_of_ne_character env2 c h]
  · exact ⟨envWith "CACHE_TTL_CHARACTER" "120", envEmpty, by decide⟩

/-- C7 witness: with the `character` override set to `120`, an unknown category still gets
60 seconds. -/
theorem GetTTL_table_witness :
    "unknown-category" ≠ "character" ∧
    GetTTL (envWith "CACHE_TTL_CHARACTER" "120") "unknown-category" = 60 * Second :=
  ⟨by decide,
    (GetTTL_table (envWith "CACHE_TTL_CHARACTER" "120")).2.2.2.1 "unknown-category"
      (by decide) (by decide) (by decide) (by decide)⟩

/-! ## Properties of the JSON decoder on scalar destinations -/

theorem dropWhile_of_all_false (p : Char → Bool) (l : List Char)
    (h : ∀ c ∈ l, p c = false) : l.dropWhile p = l := by
  cases l with
  | nil => rfl
  | cons a t => simp [List.dropWhile, h a (List.mem_cons_self a t)]

theorem trimJson_of_no_space (cs : List Char) (h : ∀ c ∈ cs, isJsonSpace c = false) :
    trimJson cs = cs := by
  unfold trimJson
  rw [dropWhile_of_all_false _ cs h,
    dropWhile_of_all_false _ cs.reverse (fun c hc => h c (List.mem_reverse.mp hc)),
    List.reverse_reverse]

theorem not_space_of_isDigit (c : Char) (h : c.isDigit = true) : isJsonSpace c = false := by
  by_contra hs
  simp only [isJsonSpace, Bool.not_eq_false, Bool.or_eq_true, decide_eq_true_eq] at hs
  rcases hs with ((rfl | rfl) | rfl) | rfl <;> exact absurd h (by decide)

/-- `Atoi` reads a minus sign before a decimal numeral of `n` as `-n`. -/
theorem Atoi_of_neg_decimal (ds : List Char) (n : Nat) (h : IsDecimalOf ds n)
    (hr : int64Min ≤ -(n : Int)) : Atoi (String.mk ('-' :: ds)) = some (-(n : Int)) := by
  obtain ⟨hne, hall, _, _, hv⟩ := h
  unfold Atoi
  have hmax : -(n : Int) ≤ int64Max := by unfold int64Max; omega
  simp [hne, hall, hv, hr, hmax]

theorem isJsonInt_of_canonical (cs : List Char) (hne : cs ≠ [])
    (hall : ∀ c ∈ cs, c.isDigit = true) (hm : cs.head? ≠ some '-')
    (hcan : cs = ['0'] ∨ cs.head? ≠ some '0') : isJsonInt cs = true := by
  unfold isJsonInt
  simp only [hm, if_false]
  rcases hcan with hc | hc
  · rw [hc]; decide
  · simp [hne, hc]
    exact hall

theorem isJsonInt_neg_of_canonical (cs : List Char) (hne : cs ≠ [])
    (hall : ∀ c ∈ cs, c.isDigit = true)
    (hcan : cs = ['0'] ∨ cs.head? ≠ some '0') : isJsonInt ('-' :: cs) = true := by
  unfold isJsonInt
  simp only [List.head?_cons, if_true, List.tail_cons]
  rcases hcan with hc | hc
  · rw [hc]; decide
  · simp [hne, hc]
    exact hall

/-- An integer within the 64-bit range, written in decimal, is decoded by `jsonUnmarshal`
into an `int` destination as that integer. -/
theorem jsonUnmarshal_toString_int (z : Int) (h1 : int64Min ≤ z) (h2 : z ≤ int64Max)
    (d : Int) : jsonUnmarshal (toString z) (Scalar.int d) = (none, Scalar.int z) := by
  cases z with
  | ofNat n =>
    obtain ⟨hdec, hcan⟩ := repr_canonical n
    have hts : toString (Int.ofNat n) = Nat.repr n := rfl
    obtain ⟨hne, hall, hm, hp, hv⟩ := hdec
    have hall2 : ∀ c ∈ (Nat.repr n).toList, c.isDigit = true := by simpa using hall
    have htrim := trimJson_of_no_space (Nat.repr n).toList
      (fun c hc => not_space_of_isDigit c (hall2 c hc))
    have hnull : (Nat.repr n).toList ≠ ['n', 'u', 'l', 'l'] := by
      intro hcs
      have := hall2 'n' (by rw [hcs]; simp)
      exact absurd this (by decide)
    have hjson := isJsonInt_of_canonical _ hne hall2 hm hcan
    have hatoi : Atoi (String.mk (Nat.repr n).toList) = some (n : Int) :=
      Atoi_of_decimal (Nat.repr n) n ⟨hne, hall, hm, hp, hv⟩ h2
    unfold jsonUnmarshal
    simp only [hts, htrim, hnull, if_false, hjson, if_true, hatoi]
    rfl
  | negSucc m =>
    obtain ⟨hdec, hcan⟩ := repr_canonical (m + 1)
    have hts : (toString (Int.negSucc m)).toList = '-' :: (Nat.repr (m + 1)).toList := by
      show (Int.repr (Int.negSucc m)).toList = _
      unfold Int.repr
      simp [Nat.succ_eq_add_one]
    obtain ⟨hne, hall, hm, hp, hv⟩ := hdec
    have hall2 : ∀ c ∈ (Nat.repr (m + 1)).toList, c.isDigit = true := by simpa using hall
    have htrim := trimJson_of_no_space ('-' :: (Nat.repr (m + 1)).toList) (by
      intro c hc
      rcases List.mem_cons.mp hc with rfl | hc
      · decide
      · exact not_space_of_isDigit c (hall2 c hc))
    have hjson := isJsonInt_neg_of_canonical _ hne hall2 hcan
    have hneg : Int.negSucc m = -((m + 1 : Nat) : Int) := Int.negSucc_coe m
    have hatoi : Atoi (String.mk ('-' :: (Nat.repr (m + 1)).toList)) =
        some (Int.negSucc m) := by
      rw [hneg]
      exact Atoi_of_neg_decimal _ (m + 1) ⟨hne, hall, hm, hp, hv⟩ (by rw [← hneg]; exact h1)
    unfold jsonUnmarshal
    simp only [hts, htrim, hjson, if_true, hatoi]
    simp

theorem jsonUnmarshal_null (p : String) (d : Scalar)
    (h : trimJson p.toList = ['n', 'u', 'l', 'l']) : jsonUnmarshal p d = (none, d) := by
  unfold jsonUnmarshal
  simp only [h, if_true]

theorem jsonUnmarshal_hit_iff (p : String) (d : Scalar) :
    ((jsonUnmarshal p d).1 = none ↔
      (trimJson p.toList = ['n', 'u', 'l', 'l'] ∨ isLiteralOf d (trimJson p.toList) = true)) ∧
    ((jsonUnmarshal p d).1 ≠ none →
      (jsonUnmarshal p d).1 = some jsonError ∧ (jsonUnmarshal p d).2 = d) := by
  unfold jsonUnmarshal isLiteralOf
  generalize trimJson p.toList = cs
  by_cases hnull : cs = ['n', 'u', 'l', 'l']
  · simp [hnull]
  · simp only [hnull, if_false, false_or]
    cases d with
    | str s =>
      simp only
      split
      · rename_i body
        rcases hu : unquoteBody (body.length + 1) body with _ | t <;> simp [hu]
      · simp
    | int n =>
      simp only
      by_cases hj : isJsonInt cs = true
      · rcases ha : Atoi (String.mk cs) with _ | z <;> simp [hj, ha]
      · simp [hj]
    | bool b =>
      simp only
      by_cases h1 : cs = ['t', 'r', 'u', 'e']
      · simp [h1]
      · by_cases h2 : cs = ['f', 'a', 'l', 's', 'e']
        · simp [h1, h2]
        · simp [h1, h2]

theorem not_literal_of_not_beginsScalar (d : Scalar) (cs : List Char)
    (h : beginsScalar cs = false) :
    cs ≠ ['n', 'u', 'l', 'l'] ∧ isLiteralOf d cs = false := by
  cases cs with
  | nil =>
    refine ⟨by simp, ?_⟩
    cases d <;> simp [isLiteralOf, isJsonInt]
  | cons c t =>
    simp only [beginsScalar, Bool.or_eq_false_iff, decide_eq_false_iff_not] at h
    obtain ⟨⟨⟨⟨⟨hq, hm⟩, hd⟩, ht⟩, hf⟩, hn⟩ := h
    refine ⟨?_, ?_⟩
    · intro hc
      exact hn (List.cons.inj hc).1
    · cases d with
      | str s =>
        unfold isLiteralOf
        simp only
        split
        · rename_i body heq
          exact absurd (List.cons.inj heq).1 hq
        · rfl
      | int n =>
        have : isJsonInt (c :: t) = false := by
          unfold isJsonInt
          simp [hm, hd]
        simp [isLiteralOf, this]
      | bool b =>
        simp [isLiteralOf, ht, hf]

/-! ## Properties of the cache-aside helper (`GetCached`) -/

section Helper

variable {σ δ : Type}

theorem GetCached_of_nil (r : Redis σ) (unmarshal : Unmarshal δ) (key : String) (result : δ)
    (w : World σ) (h : w.Client = none) :
    GetCached r unmarshal key result w =
      { out := Outcome.ret (false, none), dest := result, world := w } := by
  unfold GetCached
  rw [h]

theorem GetCached_of_error (r : Redis σ) (unmarshal : Unmarshal δ) (key : String) (result : δ)
    (w : World σ) (c : Options) (e : GoError) (h : w.Client = some c)
    (hget : (r.get c key w.store).1 = Except.error e) :
    GetCached r unmarshal key result w =
      { out := Outcome.ret (false, if e = GoError.redisNil then none else some e),
        dest := result,
        world := { w with store := (r.get c key w.store).2,
                          trace := w.trace ++ [Event.cmdGet key] } } := by
  unfold GetCached
  rw [h]
  simp only [hget]
  by_cases he : e = GoError.redisNil
  · simp only [he, if_true]
  · simp only [he, if_false]

theorem GetCached_of_ok (r : Redis σ) (unmarshal : Unmarshal δ) (key : String) (result : δ)
    (w : World σ) (c : Options) (p : String) (h : w.Client = some c)
    (hget : (r.get c key w.store).1 = Except.ok p) :
    GetCached r unmarshal key result w =
      { out := Outcome.ret ((unmarshal p result).1.isNone, (unmarshal p result).1),
        dest := (unmarshal p result).2,
        world := { w with store := (r.get c key w.store).2,
                          trace := w.trace ++ [Event.cmdGet key] } } := by
  unfold GetCached
  rw [h]
  simp only [hget]
  rcases hu : unmarshal p result with ⟨_ | e, d⟩ <;> simp

/-- C1: `GetCached` returns `(false, nil)` when `Client` is nil, and also when `Client` is set
and the read of the key reports `redis.Nil`; the caller gets the same result in both cases,
the destination is left as it was, and with `Client` nil the program state, and so the store
and the trace of store commands, is untouched. -/
theorem GetCached_miss (r : Redis σ) (unmarshal : Unmarshal δ) (key : String) (result : δ)
    (w : World σ) :
    (w.Client = none →
      (GetCached r unmarshal key result w).out = Outcome.ret (false, none) ∧
      (GetCached r unmarshal key result w).dest = result ∧
      (GetCached r unmarshal key result w).world = w) ∧
    (∀ c : Options, w.Client = some c →
      (r.get c key w.store).1 = Except.error GoError.redisNil →
      (GetCached r unmarshal key result w).out = Outcome.ret (false, none) ∧
      (GetCached r unmarshal key result w).dest = result) := by
  refine ⟨?_, ?_⟩
  · intro h
    rw [GetCached_of_nil r unmarshal key result w h]
    exact ⟨rfl, rfl, rfl⟩
  · intro c h hget
    rw [GetCached_of_error r unmarshal key result w c GoError.redisNil h hget]
    exact ⟨rfl, rfl⟩

/-- C3: when `Client` is set and the read of the key fails with an error `e` other than
`redis.Nil`, `GetCached` returns `(false, e)` with `e` unchanged, leaves the destination as it
was, and has sent the store exactly one command, the read of that key. -/
theorem GetCached_store_error (r : Redis σ) (unmarshal : Unmarshal δ) (key : String)
    (result : δ) (w : World σ) (c : Options) (e : GoError) (hc : w.Client = some c)
    (hget : (r.get c key w.store).1 = Except.error e) (hne : e ≠ GoError.redisNil) :
    (GetCached r unmarshal key result w).out = Outcome.ret (false, some e) ∧
    (GetCached r unmarshal key result w).dest = result ∧
    (GetCached r unmarshal key result w).world.trace = w.trace ++ [Event.cmdGet key] ∧
    (GetCached r unmarshal key result w).world.store = (r.get c key w.store).2 := by
  rw [GetCached_of_error r unmarshal key result w c e hc hget]
  simp [hne]

end Helper

/-- C1 witness: on the in-memory store, a nil `Client` and a key never written both give
`(false, nil)`. -/
theorem GetCached_miss_witness :
    world0.Client = none ∧
    (GetCached memRedis jsonUnmarshal "k" (Scalar.int 0) world0).out =
      Outcome.ret (false, none) ∧
    (GetCached memRedis jsonUnmarshal "k" (Scalar.int 0) world1).out =
      Outcome.ret (false, none) :=
  ⟨rfl,
    ((GetCached_miss memRedis jsonUnmarshal "k" (Scalar.int 0) world0).1 rfl).1,
    ((GetCached_miss memRedis jsonUnmarshal "k" (Scalar.int 0) world1).2
      { Addr := "localhost:6379", Password := "", DB := 0 } rfl rfl).1⟩

/-- C2 (as amended): when `Client` is set and the read of the key succeeds with payload `p`,
`GetCached` returns `(true, nil)` exactly when `json.Unmarshal` of `p` into the destination
returns nil, and `(false, e)` when it returns the error `e`; either way the destination is
as `json.Unmarshal` left it. For a `string`, `int` or `bool` destination it returns
`(true, nil)` exactly when `p`, surrounding whitespace apart, is JSON `null`, which leaves
the destination untouched, or one JSON literal of the kind of the destination; a decimal
integer within the 64-bit range read into an `int` destination is a hit with that integer in
the destination; every other payload, among them every payload that does not begin like a
JSON string, number, boolean or null (such as a JSON object or array, or text that is not
JSON), gives `(false, err)` and leaves the destination untouched. In no state at all does
`GetCached` return `true` together with an error. -/
theorem GetCached_decode {σ : Type} (r : Redis σ) (key : String) (w : World σ) :
    (∀ (c : Options) (p : String), w.Client = some c →
      (r.get c key w.store).1 = Except.ok p →
      (∀ (δ : Type) (unmarshal : Unmarshal δ) (result : δ),
        ((GetCached r unmarshal key result w).out = Outcome.ret (true, none) ↔
          (unmarshal p result).1 = none) ∧
        (∀ e : GoError, (unmarshal p result).1 = some e →
          (GetCached r unmarshal key result w).out = Outcome.ret (false, some e)) ∧
        (GetCached r unmarshal key result w).dest = (unmarshal p result).2) ∧
      (∀ d : Scalar,
        ((GetCached r jsonUnmarshal key d w).out = Outcome.ret (true, none) ↔
          (trimJson p.toList = ['n', 'u', 'l', 'l'] ∨
            isLiteralOf d (trimJson p.toList) = true)) ∧
        (trimJson p.toList = ['n', 'u', 'l', 'l'] →
          (GetCached r jsonUnmarshal key d w).out = Outcome.ret (true, none) ∧
          (GetCached r jsonUnmarshal key d w).dest = d) ∧
        (¬ (trimJson p.toList = ['n', 'u', 'l', 'l'] ∨
            isLiteralOf d (trimJson p.toList) = true) →
          (GetCached r jsonUnmarshal key d w).out = Outcome.ret (false, some jsonError) ∧
          (GetCached r jsonUnmarshal key d w).dest = d) ∧
        (beginsScalar (trimJson p.toList) = false →
          (GetCached r jsonUnmarshal key d w).out = Outcome.ret (false, some jsonError) ∧
          (GetCached r jsonUnmarshal key d w).dest = d)) ∧
      (∀ z d : Int, int64Min ≤ z → z ≤ int64Max → p = toString z →
        (GetCached r jsonUnmarshal key (Scalar.int d) w).out = Outcome.ret (true, none) ∧
        (GetCached r jsonUnmarshal key (Scalar.int d) w).dest = Scalar.int z)) ∧
    (∀ (δ : Type) (unmarshal : Unmarshal δ) (result : δ) (e : GoError),
      (GetCached r unmarshal key result w).out ≠ Outcome.ret (true, some e)) := by
  refine ⟨?_, ?_⟩
  · intro c p hc hget
    have hgen : ∀ (δ : Type) (unmarshal : Unmarshal δ) (result : δ),
        ((GetCached r unmarshal key result w).out = Outcome.ret (true, none) ↔
          (unmarshal p result).1 = none) ∧
        (∀ e : GoError, (unmarshal p result).1 = some e →
          (GetCached r unmarshal key result w).out = Outcome.ret (false, some e)) ∧
        (GetCached r unmarshal key result w).dest = (unmarshal p result).2 := by
      intro δ unmarshal result
      rw [GetCached_of_ok r unmarshal key result w c p hc hget]
      refine ⟨?_, ?_, rfl⟩
      · rcases (unmarshal p result).1 with _ | e <;> simp
      · intro e he
        rw [he]
        rfl
    have hscal : ∀ d : Scalar,
        ¬ (trimJson p.toList = ['n', 'u', 'l', 'l'] ∨
            isLiteralOf d (trimJson p.toList) = true) →
          (GetCached r jsonUnmarshal key d w).out = Outcome.ret (false, some jsonError) ∧
          (GetCached r jsonUnmarshal key d w).dest = d := by
      intro d hno
      have hne : (jsonUnmarshal p d).1 ≠ none :=
        fun h => hno ((jsonUnmarshal_hit_iff p d).1.mp h)
      obtain ⟨he, hd⟩ := (jsonUnmarshal_hit_iff p d).2 hne
      exact ⟨(hgen Scalar jsonUnmarshal d).2.1 jsonError he,
        by rw [(hgen Scalar jsonUnmarshal d).2.2, hd]⟩
    refine ⟨hgen, ?_, ?_⟩
    · intro d
      refine ⟨?_, ?_, hscal d, ?_⟩
      · rw [(hgen Scalar jsonUnmarshal d).1]
        exact (jsonUnmarshal_hit_iff p d).1
      · intro hnull
        have hu := jsonUnmarshal_null p d hnull
        refine ⟨(hgen Scalar jsonUnmarshal d).1.mpr (by rw [hu]), ?_⟩
        rw [(hgen Scalar jsonUnmarshal d).2.2, hu]
      · intro hb
        obtain ⟨h1, h2⟩ := not_literal_of_not_beginsScalar d _ hb
        exact hscal d (fun h => h.elim h1 (fun h3 => by rw [h2] at h3; cases h3))
    · intro z d h1 h2 hp
      have hu := jsonUnmarshal_toString_int z h1 h2 d
      rw [← hp] at hu
      refine ⟨(hgen Scalar jsonUnmarshal (Scalar.int d)).1.mpr (by rw [hu]), ?_⟩
      rw [(hgen Scalar jsonUnmarshal (Scalar.int d)).2.2, hu]
  · intro δ unmarshal result e
    rcases hc : w.Client with _ | c
    · rw [GetCached_of_nil r unmarshal key result w hc]
      simp
    · rcases hget : (r.get c key w.store).1 with e1 | p
      · rw [GetCached_of_error r unmarshal key result w c e1 hc hget]
        simp
      · rw [GetCached_of_ok r unmarshal key result w c p hc hget]
        rcases (unmarshal p result).1 with _ | e2 <;> simp


/-- C2 witness: the stored payload `42` read into an `int` is a hit with 42 in the
destination; the stored text `hello` and a stored JSON object read into an `int` are
`(false, err)`. -/
theorem GetCached_decode_witness :
    ((GetCached memRedis jsonUnmarshal "answer" (Scalar.int 0) worldFilled).out =
        Outcome.ret (true, none) ∧
      (GetCached memRedis jsonUnmarshal "answer" (Scalar.int 0) worldFilled).dest =
        Scalar.int 42) ∧
    ((GetCached memRedis jsonUnmarshal "greeting" (Scalar.int 0) worldFilled).out =
        Outcome.ret (false, some jsonError) ∧
      (GetCached memRedis jsonUnmarshal "greeting" (Scalar.int 0) worldFilled).dest =
        Scalar.int 0) ∧
    ((GetCached memRedis jsonUnmarshal "object" (Scalar.int 0) worldNull).out =
        Outcome.ret (false, some jsonError) ∧
      (GetCached memRedis jsonUnmarshal "object" (Scalar.int 0) worldNull).dest =
        Scalar.int 0) :=
  ⟨((GetCached_decode memRedis "answer" worldFilled).1
      { Addr := "localhost:6379", Password := "", DB := 0 } "42" rfl rfl).2.2
      42 0 (by decide) (by decide) (by decide),
    (((GetCached_decode memRedis "greeting" worldFilled).1
      { Addr := "localhost:6379", Password := "", DB := 0 } "hello" rfl rfl).2.1
      (Scalar.int 0)).2.2.2 (by decide),
    (((GetCached_decode memRedis "object" worldNull).1
      { Addr := "localhost:6379", Password := "", DB := 0 } "\x7b\"a\":1\x7d" rfl rfl).2.1
      (Scalar.int 0)).2.2.2 (by decide)⟩

/-- C2 (as stated) fails: the stored payload `null` is a JSON value that is neither an
integer nor a string, yet `GetCached` of it into an `int` destination holding 7, and into a
`string` destination holding `old`, returns `(true, nil)`, and the destination still holds
7, respectively `old`: a hit without a decoded value, where the claim has `(false, err)`. -/
theorem GetCached_null_is_hit :
    ((GetCached memRedis jsonUnmarshal "nothing" (Scalar.int 7) worldNull).out =
        Outcome.ret (true, none) ∧
      (GetCached memRedis jsonUnmarshal "nothing" (Scalar.int 7) worldNull).dest =
        Scalar.int 7) ∧
    ((GetCached memRedis jsonUnmarshal "nothing" (Scalar.str "old") worldNull).out =
        Outcome.ret (true, none) ∧
      (GetCached memRedis jsonUnmarshal "nothing" (Scalar.str "old") worldNull).dest =
        Scalar.str "old") := by
  decide

/-- A JSON object none of whose members names a field of a struct destination is a hit as
well: with the payload `{"a":1}` stored, `GetCached` into a struct whose only field is `b`
returns `(true, nil)` and leaves the struct as it was, while an object with a member `b`
fills the field. -/
theorem GetCached_object_into_struct :
    ((GetCached memRedis jsonUnmarshalStruct "object" [("b", Scalar.int 7)] worldNull).out =
        Outcome.ret (true, none) ∧
      (GetCached memRedis jsonUnmarshalStruct "object" [("b", Scalar.int 7)] worldNull).dest =
        [("b", Scalar.int 7)]) ∧
    ((GetCached memRedis jsonUnmarshalStruct "object" [("a", Scalar.int 7)] worldNull).out =
        Outcome.ret (true, none) ∧
      (GetCached memRedis jsonUnmarshalStruct "object" [("a", Scalar.int 7)] worldNull).dest =
        [("a", Scalar.int 1)]) := by
  decide

/-- C3 witness: with the store unreachable, `GetCached` returns the connection error. -/
theorem GetCached_store_error_witness :
    (GetCached memRedis jsonUnmarshal "k" (Scalar.int 0) worldDown).out =
      Outcome.ret (false, some (GoError.other "dial tcp: connection refused")) ∧
    (GetCached memRedis jsonUnmarshal "k" (Scalar.int 0) worldDown).world.trace =
      worldDown.trace ++ [Event.cmdGet "k"] :=
  have h := GetCached_store_error memRedis jsonUnmarshal "k" (Scalar.int 0) worldDown
    { Addr := "localhost:6379", Password := "", DB := 0 }
    (GoError.other "dial tcp: connection refused") rfl rfl (by decide)
  ⟨h.1, h.2.2.1⟩

/-! ## Absent client -/

/-- C8 (code defect): with `Client` nil, each of `Get`, `Set`, `Delete` and `FlushAll` panics
(a nil-pointer dereference) whatever its arguments and whatever the store, and leaves the
state as it was; of the five consumers only `GetCached` returns, with `(false, nil)`. -/
theorem primitives_panic_on_nil_Client {σ δ : Type} (r : Redis σ) (unmarshal : Unmarshal δ)
    (key : String) (value : GoValue) (ttl : Int) (result : δ) (s : σ) (t : List Event) :
    Get r key { Client := none, store := s, trace := t } =
      (Outcome.panic, { Client := none, store := s, trace := t }) ∧
    Set r key value ttl { Client := none, store := s, trace := t } =
      (Outcome.panic, { Client := none, store := s, trace := t }) ∧
    Delete r key { Client := none, store := s, trace := t } =
      (Outcome.panic, { Client := none, store := s, trace := t }) ∧
    FlushAll r { Client := none, store := s, trace := t } =
      (Outcome.panic, { Client := none, store := s, trace := t }) ∧
    (GetCached r unmarshal key result { Client := none, store := s, trace := t }).out =
      Outcome.ret (false, none) :=
  ⟨rfl, rfl, rfl, rfl, rfl⟩

/-! ## Setup -/

/-- C9 (as amended): if the URL fails to parse with `e`, `SetupWithURL` returns `e` and
leaves `Client` and the store exactly as they were, so that `Client` is nil afterwards, and
`GetCached` returns `(false, nil)`, when `Client` was nil before; if the URL parses,
`SetupWithURL` returns nil and `Client` is a client made from the parsed options. -/
theorem SetupWithURL_result {σ : Type} (parseURL : ParseURL) (redisURL : String)
    (w : World σ) :
    (∀ e : GoError, parseURL redisURL = Except.error e →
      (SetupWithURL parseURL redisURL w).1 = some e ∧
      (SetupWithURL parseURL redisURL w).2.Client = w.Client ∧
      (SetupWithURL parseURL redisURL w).2.store = w.store ∧
      (w.Client = none →
        ∀ (δ : Type) (r : Redis σ) (unmarshal : Unmarshal δ) (key : String) (result : δ),
          (GetCached r unmarshal key result (SetupWithURL parseURL redisURL w).2).out =
            Outcome.ret (false, none))) ∧
    (∀ o : Options, parseURL redisURL = Except.ok o →
      (SetupWithURL parseURL redisURL w).1 = none ∧
      (SetupWithURL parseURL redisURL w).2.Client = some o) := by
  refine ⟨?_, ?_⟩
  · intro e he
    have hS : SetupWithURL parseURL redisURL w =
        (some e, { w with trace := w.trace ++ [Event.setupWithURL redisURL] }) := by
      unfold SetupWithURL
      simp only [he]
    rw [hS]
    refine ⟨rfl, rfl, rfl, ?_⟩
    intro hnil δ r unmarshal key result
    exact congrArg Cached.out (GetCached_of_nil r unmarshal key result
      { w with trace := w.trace ++ [Event.setupWithURL redisURL] } hnil)
  · intro o ho
    have hS : SetupWithURL parseURL redisURL w =
        (none, { Client := some o, store := w.store,
                 trace := w.trace ++ [Event.setupWithURL redisURL] }) := by
      unfold SetupWithURL
      simp only [ho]
    rw [hS]
    exact ⟨rfl, rfl⟩

/-- C9 witness: from the unset state a URL with a wrong scheme gives an error and leaves
`Client` nil; a `redis://` URL gives nil and sets `Client`. -/
theorem SetupWithURL_result_witness :
    ((SetupWithURL parseRedisURL "http://localhost:6379" world0).1 =
        some (GoError.other "redis: invalid URL scheme: http") ∧
      (SetupWithURL parseRedisURL "http://localhost:6379" world0).2.Client = none) ∧
    ((SetupWithURL parseRedisURL "redis://cache:6379/2" world0).1 = none ∧
      (SetupWithURL parseRedisURL "redis://cache:6379/2" world0).2.Client =
        some { Addr := "cache:6379", Password := "", DB := 2 }) :=
  have h1 := (SetupWithURL_result parseRedisURL "http://localhost:6379" world0).1
    (GoError.other "redis: invalid URL scheme: http") rfl
  ⟨⟨h1.1, h1.2.1⟩,
    (SetupWithURL_result parseRedisURL "redis://cache:6379/2" world0).2
      { Addr := "cache:6379", Password := "", DB := 2 } rfl⟩

/-- C9 (as stated) fails: after `Setup` has set `Client`, `SetupWithURL` with a URL that does
not parse returns an error and `Client` is still the earlier client, not nil; a later
`GetCached` goes to the store and can be a hit. -/
theorem SetupWithURL_failure_keeps_Client :
    (SetupWithURL parseRedisURL "http://localhost:6379" worldFilled).1 =
      some (GoError.other "redis: invalid URL scheme: http") ∧
    (SetupWithURL parseRedisURL "http://localhost:6379" worldFilled).2.Client =
      some { Addr := "localhost:6379", Password := "", DB := 0 } ∧
    (SetupWithURL parseRedisURL "http://localhost:6379" worldFilled).2.Client ≠ none ∧
    (GetCached memRedis jsonUnmarshal "answer" (Scalar.int 0)
      (SetupWithURL parseRedisURL "http://localhost:6379" worldFilled).2).out =
      Outcome.ret (true, none) := by
  refine ⟨rfl, rfl, ?_, rfl⟩
  intro h
  cases h

/-- C10 (as amended): `initializeCache` calls `SetupWithURL` with `REDIS_URL` when that is
non-empty and then does nothing else: `Client` is the client of the parsed options when the
URL parses and is left as it was when it does not. Only when `REDIS_URL` is empty or unset
does it look at `REDIS_ADDR`: when that is non-empty it calls `Setup` with `REDIS_ADDR`,
`REDIS_PASSWORD` and the index read from `REDIS_DB` (0 when unset or not accepted by
`strconv.Atoi`), and when both are empty it leaves the state as it was. In every case at most
one setup call is made. -/
theorem initializeCache_result {σ : Type} (parseURL : ParseURL) (env : Env) (w : World σ) :
    (getEnv env "REDIS_URL" "" ≠ "" →
      (initializeCache parseURL env w).trace =
        w.trace ++ [Event.setupWithURL (getEnv env "REDIS_URL" "")] ∧
      (initializeCache parseURL env w).store = w.store ∧
      (∀ o : Options, parseURL (getEnv env "REDIS_URL" "") = Except.ok o →
        (initializeCache parseURL env w).Client = some o) ∧
      (∀ e : GoError, parseURL (getEnv env "REDIS_URL" "") = Except.error e →
        (initializeCache parseURL env w).Client = w.Client)) ∧
    (getEnv env "REDIS_URL" "" = "" → getEnv env "REDIS_ADDR" "" ≠ "" →
      initializeCache parseURL env w =
        Setup (getEnv env "REDIS_ADDR" "") (getEnv env "REDIS_PASSWORD" "")
          ((Atoi (getEnv env "REDIS_DB" "")).getD 0) w) ∧
    (getEnv env "REDIS_URL" "" = "" → getEnv env "REDIS_ADDR" "" = "" →
      initializeCache parseURL env w = w) ∧
    (∃ calls : List Event,
      (initializeCache parseURL env w).trace = w.trace ++ calls ∧ calls.length ≤ 1) := by
  have hempty : Atoi "" = none := by decide
  have hurl : getEnv env "REDIS_URL" "" ≠ "" →
      (initializeCache parseURL env w).trace =
        w.trace ++ [Event.setupWithURL (getEnv env "REDIS_URL" "")] ∧
      (initializeCache parseURL env w).store = w.store ∧
      (∀ o : Options, parseURL (getEnv env "REDIS_URL" "") = Except.ok o →
        (initializeCache parseURL env w).Client = some o) ∧
      (∀ e : GoError, parseURL (getEnv env "REDIS_URL" "") = Except.error e →
        (initializeCache parseURL env w).Client = w.Client) := by
    intro h
    unfold initializeCache SetupWithURL
    simp only [ne_eq, h, not_false_eq_true, if_true]
    rcases hp : parseURL (getEnv env "REDIS_URL" "") with e | o <;> simp
  have haddr : getEnv env "REDIS_URL" "" = "" → getEnv env "REDIS_ADDR" "" ≠ "" →
      initializeCache parseURL env w =
        Setup (getEnv env "REDIS_ADDR" "") (getEnv env "REDIS_PASSWORD" "")
          ((Atoi (getEnv env "REDIS_DB" "")).getD 0) w := by
    intro h1 h2
    unfold initializeCache
    simp only [ne_eq, h1, not_true_eq_false, if_false, h2, not_false_eq_true, if_true]
    by_cases h3 : getEnv env "REDIS_DB" "" = ""
    · simp [h3, hempty]
    · rcases ha : Atoi (getEnv env "REDIS_DB" "") with _ | db <;> simp [h3]
  have hnone : getEnv env "REDIS_URL" "" = "" → getEnv env "REDIS_ADDR" "" = "" →
      initializeCache parseURL env w = w := by
    intro h1 h2
    unfold initializeCache
    simp only [ne_eq, h1, not_true_eq_false, if_false, h2]
  refine ⟨hurl, haddr, hnone, ?_⟩
  by_cases h1 : getEnv env "REDIS_URL" "" = ""
  · by_cases h2 : getEnv env "REDIS_ADDR" "" = ""
    · exact ⟨[], by rw [hnone h1 h2]; simp, by simp⟩
    · exact ⟨[Event.setup (getEnv env "REDIS_ADDR" "") (getEnv env "REDIS_PASSWORD" "")
          ((Atoi (getEnv env "REDIS_DB" "")).getD 0)], by rw [haddr h1 h2]; rfl, by simp⟩
  · exact ⟨[Event.setupWithURL (getEnv env "REDIS_URL" "")], (hurl h1).1, by simp⟩

/-- C10 witness: with a well-formed `REDIS_URL` the client is the one of the URL and
`REDIS_ADDR` is not used; with `REDIS_ADDR` alone and a non-numeric `REDIS_DB` the client is
set up by parameters with index 0; with nothing set `Client` stays nil. -/
theorem initializeCache_result_witness :
    (initializeCache parseRedisURL envURL world0).Client =
      some { Addr := "cache:6379", Password := "", DB := 2 } ∧
    (initializeCache parseRedisURL envAddr world0).Client =
      some { Addr := "localhost:6379", Password := "secret", DB := 0 } ∧
    (initializeCache parseRedisURL envEmpty world0).Client = none :=
  ⟨((initializeCache_result parseRedisURL envURL world0).1 (by decide)).2.2.1
      { Addr := "cache:6379", Password := "", DB := 2 } rfl,
    congrArg World.Client
      ((initializeCache_result parseRedisURL envAddr world0).2.1 (by decide) (by decide)),
    congrArg World.Client
      ((initializeCache_result parseRedisURL envEmpty world0).2.2.1 (by decide) (by decide))⟩

/-- C10 (as stated) fails: with a malformed `REDIS_URL` and a non-empty `REDIS_ADDR`,
`initializeCache` makes the one call to `SetupWithURL`, does not fall back to `Setup`, and
`Client` ends up nil. -/
theorem initializeCache_no_fallback_after_bad_URL :
    getEnv envBadURL "REDIS_ADDR" "" = "localhost:6379" ∧
    parseRedisURL (getEnv envBadURL "REDIS_URL" "") =
      Except.error (GoError.other "redis: invalid URL scheme: ") ∧
    (initializeCache parseRedisURL envBadURL world0).Client = none ∧
    (initializeCache parseRedisURL envBadURL world0).trace =
      [Event.setupWithURL "not-a-url"] := by
  refine ⟨by decide, rfl, rfl, rfl⟩

/-! ## Write, then read -/

theorem expireAfter_pos (ttl : Int) : 0 < expireAfter ttl := by
  unfold expireAfter Second
  split
  · have h1 : (1 : Int) ≤ max 1 (ttl / 1000000) := le_max_left _ _
    omega
  · omega

theorem memRedis_set_ok (c : Options) (key : String) (value : GoValue) (ttl : Int)
    (s : MemStore) (h : (memRedis.set c key value ttl s).1 = none) :
    s.fault = none ∧ ∃ p : String, writeArg value = Except.ok p := by
  rcases hf : s.fault with _ | e
  · refine ⟨rfl, ?_⟩
    rcases hp : writeArg value with e | p
    · simp [memRedis, hf, hp] at h
    · exact ⟨p, rfl⟩
  · simp [memRedis, hf] at h

theorem memRedis_get_after_set (c c2 : Options) (key : String) (value : GoValue) (ttl : Int)
    (hT : 0 < ttl) (s : MemStore) (p : String) (hf : s.fault = none)
    (hp : writeArg value = Except.ok p) :
    (memRedis.get c2 key (memRedis.set c key value ttl s).2).1 = Except.ok p := by
  have hpos := expireAfter_pos ttl
  have hlive : s.now < s.now + expireAfter ttl := by omega
  simp [memRedis, hf, hp, MemStore.lookup, Entry.live, expiryOf, hT, hlive]

theorem memRedis_readsBack : ReadsBack memRedis writeArg := by
  intro c key value ttl s hT hset
  obtain ⟨hf, p, hp⟩ := memRedis_set_ok c key value ttl s hset
  exact ⟨p, hp, memRedis_get_after_set c c key value ttl hT s p hf hp⟩

/-- C4 (as amended): on every store whose immediate read returns the payload its client
wrote, for every key, every value and every TTL `T > 0`: after `Set` succeeds, which hands
the value to the client unserialized, `GetCached` of that key right after returns
`(true, nil)` with the destination equal to `v` if and only if the payload that the client
wrote for the value deserializes into the destination as `v`. The in-memory store with the
argument encoding of go-redis is such a store, and on it every `int` value within the
64-bit range is read back into an `int` destination as itself. -/
theorem Set_GetCached_round_trip :
    (∀ (σ : Type) (r : Redis σ) (encode : GoValue → Except GoError String),
      ReadsBack r encode →
      ∀ (key : String) (value : GoValue) (ttl : Int) (w : World σ), 0 < ttl →
        (Set r key value ttl w).1 = Outcome.ret none →
        ∃ p : String, encode value = Except.ok p ∧
          ∀ (δ : Type) (unmarshal : Unmarshal δ) (result v : δ),
            ((GetCached r unmarshal key result (Set r key value ttl w).2).out =
                Outcome.ret (true, none) ∧
              (GetCached r unmarshal key result (Set r key value ttl w).2).dest = v) ↔
            unmarshal p result = (none, v)) ∧
    ReadsBack memRedis writeArg ∧
    (∀ (key : String) (ttl : Int) (w : World MemStore) (z d : Int), 0 < ttl →
      (Set memRedis key (GoValue.scalar (Scalar.int z)) ttl w).1 = Outcome.ret none →
      int64Min ≤ z → z ≤ int64Max →
      (GetCached memRedis jsonUnmarshal key (Scalar.int d)
        (Set memRedis key (GoValue.scalar (Scalar.int z)) ttl w).2).out =
          Outcome.ret (true, none) ∧
      (GetCached memRedis jsonUnmarshal key (Scalar.int d)
        (Set memRedis key (GoValue.scalar (Scalar.int z)) ttl w).2).dest = Scalar.int z) := by
  have hgen : ∀ (σ : Type) (r : Redis σ) (encode : GoValue → Except GoError String),
      ReadsBack r encode →
      ∀ (key : String) (value : GoValue) (ttl : Int) (w : World σ), 0 < ttl →
        (Set r key value ttl w).1 = Outcome.ret none →
        ∃ p : String, encode value = Except.ok p ∧
          ∀ (δ : Type) (unmarshal : Unmarshal δ) (result v : δ),
            ((GetCached r unmarshal key result (Set r key value ttl w).2).out =
                Outcome.ret (true, none) ∧
              (GetCached r unmarshal key result (Set r key value ttl w).2).dest = v) ↔
            unmarshal p result = (none, v) := by
    intro σ r encode hr key value ttl w hT hset
    rcases hc : w.Client with _ | c
    · simp [Set, hc] at hset
    · have hS : Set r key value ttl w =
          (Outcome.ret (r.set c key value ttl w.store).1,
            { w with store := (r.set c key value ttl w.store).2,
                     trace := w.trace ++ [Event.cmdSet key value ttl] }) := by
        unfold Set
        rw [hc]
      rw [hS] at hset
      have hnone : (r.set c key value ttl w.store).1 = none := by
        simpa using hset
      obtain ⟨p, hp, hget⟩ := hr c key value ttl w.store hT hnone
      refine ⟨p, hp, ?_⟩
      intro δ unmarshal result v
      have hw2 : (Set r key value ttl w).2 =
          { w with store := (r.set c key value ttl w.store).2,
                   trace := w.trace ++ [Event.cmdSet key value ttl] } := by
        rw [hS]
      rw [hw2, GetCached_of_ok r unmarshal key result
        { w with store := (r.set c key value ttl w.store).2,
                 trace := w.trace ++ [Event.cmdSet key value ttl] } c p hc hget]
      rcases hu : unmarshal p result with ⟨_ | e, d⟩ <;> simp
  refine ⟨hgen, memRedis_readsBack, ?_⟩
  intro key ttl w z d hT hset h1 h2
  obtain ⟨p, hp, hiff⟩ := hgen MemStore memRedis writeArg memRedis_readsBack key
    (GoValue.scalar (Scalar.int z)) ttl w hT hset
  have hp2 : p = toString z := by
    simp only [writeArg] at hp
    exact (Except.ok.inj hp).symm
  apply (hiff Scalar jsonUnmarshal (Scalar.int d) (Scalar.int z)).mpr
  rw [hp2]
  exact jsonUnmarshal_toString_int z h1 h2 d

/-- C4 witness: the integer 42 written with a TTL of one second is read back as 42. -/
theorem Set_GetCached_round_trip_witness :
    (Set memRedis "k" (GoValue.scalar (Scalar.int 42)) Second world1).1 = Outcome.ret none ∧
    (GetCached memRedis jsonUnmarshal "k" (Scalar.int 0)
      (Set memRedis "k" (GoValue.scalar (Scalar.int 42)) Second world1).2).out =
      Outcome.ret (true, none) ∧
    (GetCached memRedis jsonUnmarshal "k" (Scalar.int 0)
      (Set memRedis "k" (GoValue.scalar (Scalar.int 42)) Second world1).2).dest =
      Scalar.int 42 :=
  ⟨rfl,
    Set_GetCached_round_trip.2.2 "k" Second world1 42 0 (by decide) rfl
      (by decide) (by decide)⟩

/-- C4 (as stated) fails: `Set` of the Go string `hello` with a TTL of one second succeeds,
and `GetCached` of the same key into a string destination right after returns
`(false, err)`: the client writes the string as its raw bytes, which are not JSON. The same
holds for the boolean `true`, written as `1`. -/
theorem Set_GetCached_string_not_round_trip :
    ((Set memRedis "k" (GoValue.scalar (Scalar.str "hello")) Second world1).1 =
        Outcome.ret none ∧
      (GetCached memRedis jsonUnmarshal "k" (Scalar.str "")
        (Set memRedis "k" (GoValue.scalar (Scalar.str "hello")) Second world1).2).out =
        Outcome.ret (false, some jsonError)) ∧
    ((Set memRedis "k" (GoValue.scalar (Scalar.bool true)) Second world1).1 =
        Outcome.ret none ∧
      (GetCached memRedis jsonUnmarshal "k" (Scalar.bool false)
        (Set memRedis "k" (GoValue.scalar (Scalar.bool true)) Second world1).2).out =
        Outcome.ret (false, some jsonError)) := by
  refine ⟨⟨rfl, ?_⟩, ⟨rfl, ?_⟩⟩ <;> decide

end Cache
